import Mathlib

/-!
# Verification of the loits falling-block game core

Shallow embedding of `src/game/Shape.js` and `src/game/NetworkManager.js`
(plus the `Bullet` class appended to the latter).  Machine numbers are
idealised as exact rationals (`ℚ`); JSON records are Lean structures with
`Option` fields for possibly-missing keys; the Firebase store writes a
method performs are reified as an ordered list of `Write` values.

Arithmetic layer: Mathlib's `Rat` operations are `@[irreducible]`, so the
model performs its arithmetic through the `Qc` wrappers below, which are
definitionally `mkRat` computations the kernel can evaluate (needed for
the concrete witnesses); the `Qc.*_eq` bridge lemmas identify each wrapper
with the standard operation, so the theorems speak ordinary `ℚ`.

Angles: the source keeps angles in radians; the values that ever flow into
an angle field are rational multiples of π (`Math.PI / 40`, `Math.PI / 2`,
accumulated sums of those) together with plain rational numbers (the
constructor's `0.1`, JSON `currentRotation` payloads).  Rotation by an
exact quarter turn about the z axis is the only rotation whose numeric
effect any verified property depends on, so the embedding is parametrised
by an `AngleModel`: an abstract angle type with the operations the source
uses, constrained (by proof fields) to agree with real trigonometry on
multiples of π.  Real numbers with real `cos`/`sin` form such a model; the
computable model `anglesQPi` used by the concrete witnesses represents an
angle `a + b·π` as the pair `(a, b)`.
-/

namespace Qc

/-- Kernel-computable rational addition. -/
def add (a b : ℚ) : ℚ := mkRat (a.num * b.den + b.num * a.den) (a.den * b.den)

/-- Kernel-computable rational subtraction. -/
def sub (a b : ℚ) : ℚ := mkRat (a.num * b.den - b.num * a.den) (a.den * b.den)

/-- Kernel-computable rational multiplication. -/
def mul (a b : ℚ) : ℚ := mkRat (a.num * b.num) (a.den * b.den)

/-- Kernel-computable rational negation. -/
def neg (a : ℚ) : ℚ := mkRat (-a.num) a.den

/-- Kernel-computable rational absolute value. -/
def habs (a : ℚ) : ℚ := mkRat |a.num| a.den

/-- Kernel-computable division by two (the only division the source
performs on game quantities, `gridSize / 2`). -/
def halfOf (a : ℚ) : ℚ := mkRat a.num (a.den * 2)

/-- Kernel-computable `Math.round`: round half toward positive infinity,
`⌊a + 1/2⌋`. -/
def roundQ (a : ℚ) : ℤ := Int.fdiv (2 * a.num + a.den) (2 * a.den)

theorem num_den_cast_ne (a : ℚ) : ((a.den : ℚ)) ≠ 0 := by
  exact_mod_cast a.den_nz

@[simp] theorem add_eq (a b : ℚ) : add a b = a + b := by
  rw [add, Rat.mkRat_eq_div]
  conv_rhs => rw [← Rat.num_div_den a, ← Rat.num_div_den b]
  push_cast
  rw [div_add_div _ _ (num_den_cast_ne a) (num_den_cast_ne b)]
  ring_nf

@[simp] theorem sub_eq (a b : ℚ) : sub a b = a - b := by
  rw [sub, Rat.mkRat_eq_div]
  conv_rhs => rw [← Rat.num_div_den a, ← Rat.num_div_den b]
  push_cast
  rw [div_sub_div _ _ (num_den_cast_ne a) (num_den_cast_ne b)]
  ring_nf

@[simp] theorem mul_eq (a b : ℚ) : mul a b = a * b := by
  rw [mul, Rat.mkRat_eq_div]
  conv_rhs => rw [← Rat.num_div_den a, ← Rat.num_div_den b]
  push_cast
  rw [div_mul_div_comm]

@[simp] theorem neg_eq (a : ℚ) : neg a = -a := by
  rw [neg, Rat.mkRat_eq_div]
  conv_rhs => rw [← Rat.num_div_den a]
  push_cast
  rw [neg_div]

@[simp] theorem habs_eq (a : ℚ) : habs a = |a| := by
  rw [habs, Rat.mkRat_eq_div]
  conv_rhs => rw [← Rat.num_div_den a]
  rw [abs_div, ← Int.cast_abs,
    abs_of_nonneg (show (0 : ℚ) ≤ (a.den : ℚ) by positivity)]

@[simp] theorem halfOf_eq (a : ℚ) : halfOf a = a / 2 := by
  rw [halfOf, Rat.mkRat_eq_div]
  conv_rhs => rw [← Rat.num_div_den a]
  push_cast
  rw [div_div]

@[simp] theorem roundQ_eq (a : ℚ) : roundQ a = round a := by
  have h : a + 1/2 = ((2 * a.num + (a.den : ℤ) : ℤ) : ℚ) / ((2 * a.den : ℕ) : ℚ) := by
    conv_lhs => rw [← Rat.num_div_den a]
    push_cast
    field_simp
    ring
  rw [round_eq, h, Rat.floor_intCast_div_natCast, roundQ,
    Int.fdiv_eq_ediv _ (by positivity)]
  norm_cast

end Qc

/-- A 3-component vector (`THREE.Vector3`) with rational coordinates. -/
structure Vec3 where
  x : ℚ
  y : ℚ
  z : ℚ
deriving DecidableEq

/-- Componentwise addition, `Vector3.add`. -/
def Vec3.add (a b : Vec3) : Vec3 :=
  ⟨Qc.add a.x b.x, Qc.add a.y b.y, Qc.add a.z b.z⟩

instance : Add Vec3 := ⟨Vec3.add⟩

theorem Vec3.add_def (a b : Vec3) :
    a + b = ⟨a.x + b.x, a.y + b.y, a.z + b.z⟩ := by
  show Vec3.add a b = _
  simp [Vec3.add]

/-- The zero vector (`new THREE.Vector3()`). -/
def Vec3.zero : Vec3 := ⟨0, 0, 0⟩

/-- Exact counter-clockwise quarter turn about the z axis:
`applyAxisAngle((0,0,1), π/2)`. -/
def Vec3.quarterTurn (v : Vec3) : Vec3 := ⟨Qc.neg v.y, v.x, v.z⟩

/-- Exact clockwise quarter turn about the z axis:
`applyAxisAngle((0,0,1), -π/2)`. -/
def Vec3.quarterTurnInv (v : Vec3) : Vec3 := ⟨v.y, Qc.neg v.x, v.z⟩

/-- Abstract model of the angle arithmetic the source performs.  `ofQPi b`
denotes the angle `b·π` radians; `ofQ a` denotes the plain number `a`
(radians).  The proof fields pin the operations to their real-number
meaning on multiples of π, which are the only angles whose numeric
behaviour the verified properties use; `rot` at other angles (the
transient interpolation steps `k·π/40`) may behave arbitrarily. -/
structure AngleModel where
  A : Type
  ofQPi : ℚ → A
  ofQ : ℚ → A
  add : A → A → A
  absGE : A → A → Bool
  sgn : A → ℚ
  rot : A → Vec3 → Vec3
  add_ofQPi : ∀ a b : ℚ, add (ofQPi a) (ofQPi b) = ofQPi (a + b)
  absGE_ofQPi : ∀ a b : ℚ, absGE (ofQPi a) (ofQPi b) = decide (|b| ≤ |a|)
  sgn_ofQPi : ∀ a : ℚ, sgn (ofQPi a) = if 0 < a then 1 else if a < 0 then -1 else 0
  rot_quarter : ∀ v, rot (ofQPi (mkRat 1 2)) v = v.quarterTurn
  rot_quarter_neg : ∀ v, rot (ofQPi (mkRat (-1) 2)) v = v.quarterTurnInv
  rot_zero : ∀ v, rot (ofQPi 0) v = v
  ofQPi_inj : ∀ a b : ℚ, ofQPi a = ofQPi b → a = b

/-- Computable angle model: `a + b·π` is the pair `(a, b)`.  All the
constrained operations are exact; `rot` at angles other than `0` and
`±π/2` (never relied on by any theorem) falls back to the identity. -/
def anglesQPi : AngleModel where
  A := ℚ × ℚ
  ofQPi b := (0, b)
  ofQ a := (a, 0)
  add x y := (Qc.add x.1 y.1, Qc.add x.2 y.2)
  absGE x y :=
    if x.1 = 0 ∧ y.1 = 0 then decide (Qc.habs y.2 ≤ Qc.habs x.2)
    else if x.2 = 0 ∧ y.2 = 0 then decide (Qc.habs y.1 ≤ Qc.habs x.1)
    else false
  sgn x :=
    if x.1 = 0 then (if 0 < x.2 then 1 else if x.2 < 0 then -1 else 0)
    else if x.2 = 0 then (if 0 < x.1 then 1 else if x.1 < 0 then -1 else 0)
    else 0
  rot x v :=
    if x = ((0 : ℚ), mkRat 1 2) then v.quarterTurn
    else if x = ((0 : ℚ), mkRat (-1) 2) then v.quarterTurnInv
    else v
  add_ofQPi := by intro a b; simp
  absGE_ofQPi := by intro a b; simp
  sgn_ofQPi := by intro a; simp
  rot_quarter := by
    intro v
    dsimp only
    rw [if_pos rfl]
  rot_quarter_neg := by
    intro v
    dsimp only
    split_ifs with h1 h2
    · exfalso; rw [Prod.ext_iff] at h1; norm_num [Rat.mkRat_eq_div] at h1
    · rfl
    · exact absurd rfl h2
  rot_zero := by
    intro v
    dsimp only
    split_ifs with h1 h2
    · exfalso; rw [Prod.ext_iff] at h1; norm_num [Rat.mkRat_eq_div] at h1
    · exfalso; rw [Prod.ext_iff] at h2; norm_num [Rat.mkRat_eq_div] at h2
    · rfl
  ofQPi_inj := by intro a b h; exact congrArg Prod.snd h

instance : DecidableEq anglesQPi.A := inferInstanceAs (DecidableEq (ℚ × ℚ))

/-- One mesh of a shape.  `offset` is `userData.initialOffset`; it is
`none` for the fresh meshes `NetworkManager.updateShapes` builds from a
store snapshot's `blocks` field (those meshes never get an
`initialOffset`, and every guarded loop in `Shape` skips them). -/
structure Block where
  offset : Option Vec3
  pos : Vec3
deriving DecidableEq

/-- State of a `Shape` instance (`src/game/Shape.js`).  The constant
`rotationAxis = (0,0,1)` is left implicit in `AngleModel.rot`; the derived
`center` is read by no operation a claim mentions and is omitted. -/
structure ShapeState (A : Type) where
  type : String
  color : ℤ
  isStatic : Bool
  blocks : List Block
  position : Vec3
  isLocked : Bool
  isActive : Bool
  fallSpeed : ℚ
  lastFallTime : ℚ
  gridSize : ℚ
  groundLevel : ℚ
  rotationSpeed : A
  isRotating : Bool
  rotationAngle : A
  currentRotation : A
  targetRotation : A

deriving instance DecidableEq for ShapeState

namespace Shape

/-- `Shape.getShapeDefinition`: the fixed per-type table of block offsets;
unknown types degrade to a single cell. -/
def getShapeDefinition (type : String) : List (ℚ × ℚ) :=
  if type = "I" then
    [(mkRat (-1) 2, mkRat (-1) 2), (mkRat (-1) 2, mkRat 1 2),
     (mkRat (-1) 2, mkRat 3 2), (mkRat (-1) 2, mkRat 5 2)]
  else if type = "O" then
    [(mkRat (-1) 2, mkRat (-1) 2), (mkRat 1 2, mkRat (-1) 2),
     (mkRat (-1) 2, mkRat 1 2), (mkRat 1 2, mkRat 1 2)]
  else if type = "T" then
    [(mkRat (-1) 2, mkRat (-1) 2), (mkRat (-3) 2, mkRat 1 2),
     (mkRat (-1) 2, mkRat 1 2), (mkRat 1 2, mkRat 1 2)]
  else if type = "L" then
    [(mkRat (-1) 2, mkRat (-1) 2), (mkRat 1 2, mkRat (-1) 2),
     (mkRat (-1) 2, mkRat 1 2), (mkRat (-1) 2, mkRat 3 2)]
  else if type = "S" then
    [(mkRat (-1) 2, mkRat (-1) 2), (mkRat 1 2, mkRat (-1) 2),
     (mkRat 1 2, mkRat 1 2), (mkRat 3 2, mkRat 1 2)]
  else [(0, 0)]

/-- The `Shape` constructor followed by `generateShape`: position starts at
the origin and each block is placed at its offset. -/
def mkShape (M : AngleModel) (type : String) (color : ℤ) (isStatic : Bool) :
    ShapeState M.A :=
  { type := type
    color := color
    isStatic := isStatic
    blocks := (getShapeDefinition type).map fun o =>
      { offset := some ⟨o.1, o.2, 0⟩, pos := Vec3.zero + ⟨o.1, o.2, 0⟩ }
    position := Vec3.zero
    isLocked := false
    isActive := !isStatic
    fallSpeed := 1
    lastFallTime := 0
    gridSize := 10
    groundLevel := 0
    rotationSpeed := M.ofQ (mkRat 1 10)
    isRotating := false
    rotationAngle := M.ofQPi (mkRat 1 2)
    currentRotation := M.ofQPi 0
    targetRotation := M.ofQPi 0 }

/-- `Shape.updateBlockPositions`: re-derive every block's position from the
base position and its stored offset, applying the in-flight rotation when
`isRotating`; blocks without an `initialOffset` are skipped (the source
warns and leaves them in place). -/
def updateBlockPositions (M : AngleModel) (s : ShapeState M.A) : ShapeState M.A :=
  { s with blocks := s.blocks.map fun b =>
      match b.offset with
      | none => b
      | some o =>
        { b with pos := s.position +
            (if s.isRotating then M.rot s.currentRotation o else o) } }

/-- `Shape.startRotation(clockwise)`.  Result `none` models the `TypeError`
the source throws when a block lacks `userData.initialOffset` (the
new-positions map dereferences it unguarded); otherwise the result carries
the JS return value (`none` for the bare `return` when already rotating,
`some b` for `return b`) and the post-state. -/
def rotationWouldBeValid (M : AngleModel) (s : ShapeState M.A) (clockwise : Bool) :
    Bool :=
  (s.blocks.map fun b =>
    s.position + M.rot (M.ofQPi (if clockwise then mkRat 1 2 else mkRat (-1) 2))
      (b.offset.getD Vec3.zero)).all
    fun p => decide (Qc.habs p.x ≤ Qc.halfOf 10)

def startRotation (M : AngleModel) (s : ShapeState M.A) (clockwise : Bool) :
    Option (Option Bool × ShapeState M.A) :=
  if s.isRotating then some (none, s)
  else
    let s1 : ShapeState M.A :=
      { s with isRotating := true
               currentRotation := M.ofQPi 0
               rotationSpeed := M.ofQPi (if clockwise then mkRat 1 40 else mkRat (-1) 40)
               targetRotation := M.ofQPi (if clockwise then mkRat 1 2 else mkRat (-1) 2) }
    if s.blocks.any fun b => b.offset.isNone then none
    else
      if rotationWouldBeValid M s clockwise then
        some (some true, updateBlockPositions M s1)
      else
        some (some false, { s1 with isRotating := false, currentRotation := M.ofQPi 0 })

/-- `Shape.moveSideways(direction)`. -/
def moveSideways (M : AngleModel) (s : ShapeState M.A) (direction : ℚ) :
    Bool × ShapeState M.A :=
  let newX := Qc.add s.position.x direction
  if Qc.habs newX ≤ Qc.halfOf s.gridSize then
    (true, updateBlockPositions M { s with position := { s.position with x := newX } })
  else
    (false, s)

/-- Minimum `y` over a block list (`lowestY` in `snapToGrid`; `none` for an
empty list, whose JS value `Infinity` fails the `<= groundLevel` test). -/
def minBlockY : List Block → Option ℚ
  | [] => none
  | b :: t =>
    match minBlockY t with
    | none => some b.pos.y
    | some m => some (min b.pos.y m)

/-- `Shape.snapToGrid`: round the base x to the nearest integer, lift the
shape so its lowest block sits at ground level when some block is at or
below it, then re-derive block positions. -/
def snapToGrid (M : AngleModel) (s : ShapeState M.A) : ShapeState M.A :=
  let s1 := { s with position := { s.position with x := ((Qc.roundQ s.position.x : ℤ) : ℚ) } }
  let s2 :=
    match minBlockY s1.blocks with
    | none => s1
    | some m =>
      if m ≤ s1.groundLevel then
        { s1 with position :=
            { s1.position with y := Qc.add s1.position.y (Qc.sub s1.groundLevel m) } }
      else s1
  updateBlockPositions M s2

/-- The rotation-interpolation half of `Shape.update` (lines 196-225):
advance `currentRotation` by `rotationSpeed`; on reaching the target, bake
the exact quarter turn `sign(target)·π/2` into each block's stored offset
(per-block `try`/`catch` skips offset-less meshes), clear the rotation
state and snap to the grid; in both cases re-derive block positions. -/
def rotationStep (M : AngleModel) (s : ShapeState M.A) : ShapeState M.A :=
  let cur := M.add s.currentRotation s.rotationSpeed
  if M.absGE cur s.targetRotation then
    let finalRotation := M.ofQPi (Qc.mul (M.sgn s.targetRotation) (mkRat 1 2))
    let baked : List Block := s.blocks.map fun b =>
      match b.offset with
      | none => b
      | some o => { b with offset := some (M.rot finalRotation o) }
    updateBlockPositions M
      (snapToGrid M
        { s with blocks := baked, isRotating := false, currentRotation := M.ofQPi 0 })
  else
    updateBlockPositions M { s with currentRotation := cur }

/-- The gravity half of `Shape.update` (lines 227-260): once the fall
interval has elapsed, either lock in place (when some block's prospective
position is at or below ground level) or descend one step.  The collision
test (`wouldCollide`) is split out: some block's offset (rotated while a
rotation is in flight) added to the prospective base height reaches the
ground; offset-less blocks are skipped by the source's guard. -/
def fallWouldCollide (M : AngleModel) (s : ShapeState M.A) (nextY : ℚ) : Bool :=
  s.blocks.any fun b =>
    match b.offset with
    | none => false
    | some o =>
      decide (Qc.add nextY (if s.isRotating then M.rot s.currentRotation o else o).y
        ≤ s.groundLevel)

def fallStep (M : AngleModel) (s : ShapeState M.A) (currentTime : ℚ) : ShapeState M.A :=
  if Qc.sub currentTime s.lastFallTime ≥ 1000 then
    if fallWouldCollide M s (Qc.sub s.position.y s.fallSpeed) then
      updateBlockPositions M
        { snapToGrid M s with isLocked := true, isActive := false }
    else
      updateBlockPositions M
        { s with position := { s.position with y := Qc.sub s.position.y s.fallSpeed },
                 lastFallTime := currentTime }
  else s

/-- `Shape.update(currentTime)`: no-op on locked shapes, otherwise the
rotation step (when rotating) followed by the gravity step. -/
def update (M : AngleModel) (s : ShapeState M.A) (currentTime : ℚ) : ShapeState M.A :=
  if s.isLocked then s
  else
    let s1 := if s.isRotating then rotationStep M s else s
    fallStep M s1 currentTime

end Shape

/-! ## NetworkManager (`src/game/NetworkManager.js`)

Store state is delivered to the manager as JSON snapshots; the writes a
handler issues (to Firebase paths) are returned as an ordered `List Write`
(program order; the store applies same-path writes in that order). -/

/-- A single Firebase write issued by the manager.  `addPoints` abbreviates
the read-modify-write of `scores/{id}` performed by
`NetworkManager.addPoints` (read current score, write `current + points`).
In `updGameState` a field of value `none` is absent from the patch and an
inner `none` is the JSON `null`. -/
inductive Write
  | delShape (id : String)
  | delPlayer (id : String)
  | delScore (id : String)
  | setShapeRec (id : String) (type : String) (color : ℤ) (pos : Vec3)
      (isLocked : Bool) (isActive : Bool) (lastUpdate : ℚ) (createdBy : String)
  | updGameState (isActive : Option Bool) (currentShapeId : Option (Option String))
      (lastSpawnTime : Option ℚ)
  | addPoints (id : String) (points : ℤ)
  | updShapeBlocks (id : String) (blocks : List Vec3) (lastUpdate : ℚ)
  | setRowCompletion (y : ℤ) (timestamp : ℚ)
  | updShapeState (id : String) (pos : Option Vec3) (isLocked : Option Bool)
      (isActive : Option Bool) (isRotating : Option Bool)
      (currentRotation : Option ℚ) (lastUpdate : ℚ)
deriving DecidableEq

/-- Association-list lookup (JS `Map.get` / object indexing). -/
def aget {β : Type _} (id : String) : List (String × β) → Option β
  | [] => none
  | e :: t => if e.1 = id then some e.2 else aget id t

/-- Association-list update of an existing key (JS `Map.set` on a present
key; leaves the list unchanged when the key is absent). -/
def aset {β : Type _} (id : String) (v : β) (l : List (String × β)) :
    List (String × β) :=
  l.map fun e => if e.1 = id then (id, v) else e

/-- JS `Boolean(x)` on a possibly-missing boolean field. -/
def jsBool (o : Option Bool) : Bool := o.getD false

/-- JS truthiness of a possibly-missing string field. -/
def truthyStr : Option String → Bool
  | some s => decide (s ≠ "")
  | none => false

/-- JS truthiness of a possibly-missing numeric field (`0` is falsy). -/
def truthyNum : Option ℤ → Bool
  | some c => decide (c ≠ 0)
  | none => false

/-- A `shapes/{id}` store record as consumed by `updateShapes`. -/
structure ShapeData where
  type : Option String
  color : Option ℤ
  position : Option Vec3
  isLocked : Option Bool
  isActive : Option Bool
  isRotating : Option Bool
  currentRotation : Option ℚ
  blocks : Option (List Vec3)
deriving DecidableEq

/-- The `gameState` singleton record. -/
structure GameState where
  isActive : Bool
  currentShapeId : Option String
  lastSpawnTime : ℚ
  createdBy : String
deriving DecidableEq

namespace NetworkManager

/-- The update-an-existing-shape half of `updateShapes` (lines 478-523):
position freshness (never move an unlocked shape up; `0` coordinates fall
back to the current ones through `Number(v) || old`), flag overwrite from
the snapshot, the game-state write on an observed lock transition,
`currentRotation` adoption, wholesale block replacement (fresh meshes with
no `initialOffset`), and a block-position refresh for active shapes. -/
def updateExisting (M : AngleModel) (now : ℚ) (s : ShapeState M.A)
    (d : ShapeData) : ShapeState M.A × List Write :=
  let s1 :=
    match d.position with
    | some p =>
      if !s.isLocked then
        if p.y ≤ s.position.y then
          { s with position :=
              ⟨(if p.x = 0 then s.position.x else p.x), p.y,
               (if p.z = 0 then s.position.z else p.z)⟩ }
        else s
      else s
    | none => s
  let wasActive := s1.isActive
  let s2 := { s1 with isLocked := jsBool d.isLocked,
                      isActive := jsBool d.isActive,
                      isRotating := jsBool d.isRotating }
  let ws : List Write :=
    if wasActive && s2.isLocked then
      [Write.updGameState none (some none) (some now)]
    else []
  let s3 :=
    match d.currentRotation with
    | some r => { s2 with currentRotation := M.ofQ r }
    | none => s2
  let s4 :=
    match d.blocks with
    | some bl => { s3 with blocks := bl.map fun p => { offset := none, pos := p } }
    | none => s3
  let s5 := if s4.isActive then Shape.updateBlockPositions M s4 else s4
  (s5, ws)

/-- The create-a-missing-shape half of `updateShapes` (lines 451-475):
requires truthy `type`, `color` and `position`, refuses positions above
`y = 20`, and otherwise builds a fresh `Shape`, placing and flagging it
from the snapshot record. -/
def createFromData (M : AngleModel) (d : ShapeData) : Option (ShapeState M.A) :=
  if truthyStr d.type && truthyNum d.color && d.position.isSome then
    let p := d.position.getD Vec3.zero
    if 20 < p.y then none
    else
      some (Shape.updateBlockPositions M
        { Shape.mkShape M (d.type.getD "") (d.color.getD 0) false with
            position := p
            isLocked := jsBool d.isLocked
            isActive := jsBool d.isActive })
  else none

/-- Result of one reconciliation pass over the shapes cache.  `created`
counts cache insertions (each backed by a freshly constructed `Shape`
added to the scene) and `disposed` counts `dispose` calls; the abandoned
`Shape` the source constructs and drops for a record above `y = 20` never
reaches the cache or the scene and is not counted. -/
structure ShapesResult (A : Type) where
  cache : List (String × ShapeState A)
  writes : List Write
  created : ℕ
  disposed : ℕ
deriving DecidableEq

/-- `NetworkManager.updateShapes(shapes)` (lines 419-531): drop cached
shapes absent from the snapshot, then, per snapshot entry (skipping JSON
`null` records), create the shape if missing and apply the
existing-shape update.  `updateShapesStep` is the body of that
per-entry loop. -/
def updateShapesStep (M : AngleModel) (now : ℚ) (r : ShapesResult M.A)
    (e : String × Option ShapeData) : ShapesResult M.A :=
  match e.2 with
  | none => r
  | some d =>
    match aget e.1 r.cache with
    | some s =>
      let u := updateExisting M now s d
      { r with cache := aset e.1 u.1 r.cache, writes := r.writes ++ u.2 }
    | none =>
      match createFromData M d with
      | none => r
      | some sNew =>
        let u := updateExisting M now sNew d
        { r with cache := aset e.1 u.1 (r.cache ++ [(e.1, sNew)])
                 writes := r.writes ++ u.2
                 created := r.created + 1 }

def updateShapes (M : AngleModel) (now : ℚ)
    (cache : List (String × ShapeState M.A))
    (snap : List (String × Option ShapeData)) : ShapesResult M.A :=
  let keys := snap.map Prod.fst
  let kept := cache.filter fun e => decide (e.1 ∈ keys)
  let start : ShapesResult M.A :=
    { cache := kept, writes := [], created := 0,
      disposed := cache.length - kept.length }
  snap.foldl (updateShapesStep M now) start

/-- The mutable-field patch accepted by `updateShapeState`. -/
structure ShapePatch where
  position : Option Vec3
  isLocked : Option Bool
  isActive : Option Bool
  isRotating : Option Bool
  currentRotation : Option ℚ
deriving DecidableEq

/-- `NetworkManager.updateShapeState(shapeId, state)` (lines 533-572):
drops the call when the shape is unknown, when it is inactive and the
patch does not set `isLocked` truthy, or when inside the 200 ms throttle
window; otherwise emits the store patch and advances the throttle clock.
The local shape object is never mutated. -/
def updateShapeState (M : AngleModel) (now lastShapeUpdate : ℚ)
    (cache : List (String × ShapeState M.A)) (shapeId : String)
    (st : ShapePatch) : List Write × ℚ :=
  match aget shapeId cache with
  | none => ([], lastShapeUpdate)
  | some shape =>
    if !shape.isActive && !(st.isLocked = some true) then ([], lastShapeUpdate)
    else if Qc.sub now lastShapeUpdate < 200 then ([], lastShapeUpdate)
    else
      ([Write.updShapeState shapeId st.position st.isLocked st.isActive
          st.isRotating st.currentRotation now], now)

/-- The predicate of `cleanupFloatingShapes` (lines 772-792): inactive yet
above the ground, or higher than `y = 20`. -/
def isFloating {A : Type} (s : ShapeState A) : Bool :=
  (!s.isActive && decide (0 < s.position.y)) || decide (20 < s.position.y)

/-- `NetworkManager.cleanupFloatingShapes`: dispose and delete (locally and
in the store) every floating shape. -/
def cleanupFloatingShapes {A : Type} (cache : List (String × ShapeState A)) :
    List (String × ShapeState A) × List Write :=
  (cache.filter fun e => !isFloating e.2,
   (cache.filter fun e => isFloating e.2).map fun e => Write.delShape e.1)

/-- `NetworkManager.addShape(type, color, position)` (lines 351-376): write
the new shape record, then point `gameState` at it.  `shapeId` stands for
the randomly generated id, `now` for `Date.now()`. -/
def addShape (playerId shapeId : String) (type : String) (color : ℤ)
    (position : Vec3) (now : ℚ) : List Write :=
  [Write.setShapeRec shapeId type color position false true now playerId,
   Write.updGameState (some true) (some (some shapeId)) (some now)]

/-- `NetworkManager.handleGameStateUpdate` (lines 739-770) composed with
`spawnNewShape` (lines 794-805): clean up floating shapes, then spawn —
sentinel write first, shape record second — exactly when no cached shape
is active-and-unlocked, `currentShapeId` is `null`, more than 1000 ms have
passed since `lastSpawnTime`, and this client is first in the cached
player list (which excludes the local player).  `spawnId`, `spawnType`,
`spawnColor` and `spawnX` stand for the random choices of
`spawnNewShape`/`addShape`. -/
def handleGameStateUpdate (M : AngleModel) (playerId : String)
    (gameState : Option GameState) (cache : List (String × ShapeState M.A))
    (players : List String) (currentTime : ℚ) (spawnId spawnType : String)
    (spawnColor : ℤ) (spawnX : ℚ) :
    List (String × ShapeState M.A) × List Write :=
  match gameState with
  | none => (cache, [])
  | some gs =>
    let cleaned := cleanupFloatingShapes cache
    let hasActiveFallingShape : Bool :=
      cleaned.1.any fun e => e.2.isActive && !e.2.isLocked
    let hasCurrentShape : Bool := decide (gs.currentShapeId ≠ none)
    if !hasActiveFallingShape && !hasCurrentShape
        && decide (1000 < Qc.sub currentTime gs.lastSpawnTime) then
      let isFirstPlayer : Bool :=
        decide (players = []) || decide (players.head? = some playerId)
      if isFirstPlayer then
        (cleaned.1, cleaned.2 ++
          [Write.updGameState none (some (some "spawning")) (some currentTime)] ++
          addShape playerId spawnId spawnType spawnColor ⟨spawnX, 15, 0⟩ currentTime)
      else (cleaned.1, cleaned.2)
    else (cleaned.1, cleaned.2)

/-- The ascending indices of blocks whose rounded `y` equals the completed
row (the `forEach` collecting `blocksToRemove` in `handleRowCompletion`). -/
def rowIdxs (y : ℤ) : List Block → ℕ → List ℕ
  | [], _ => []
  | b :: t, i =>
    if Qc.roundQ b.pos.y = y then i :: rowIdxs y t (i + 1)
    else rowIdxs y t (i + 1)

/-- Splice out the given indices one by one (`blocks.splice(index, 1)`;
the caller passes them sorted descending). -/
def spliceDesc (bs : List Block) (idxs : List ℕ) : List Block :=
  idxs.foldl (fun l i => l.eraseIdx i) bs

/-- `NetworkManager.handleRowCompletion(y)` (lines 807-861): award the
fixed 10 points to the local player, splice every block at the completed
row out of each locked shape (refreshing the survivors' positions),
republish the truncated block lists of the modified shapes, and stamp
`gameState/lastRowCompletion`. -/
def handleRowCompletion (M : AngleModel) (playerId : String) (y : ℤ)
    (now : ℚ) (cache : List (String × ShapeState M.A)) :
    List (String × ShapeState M.A) × List Write :=
  let step :=
    cache.foldl (fun (acc : List (String × ShapeState M.A) × List String) e =>
      if e.2.isLocked then
        let idxs := rowIdxs y e.2.blocks 0
        if idxs ≠ [] then
          let s' := Shape.updateBlockPositions M
            { e.2 with blocks := spliceDesc e.2.blocks idxs.reverse }
          (acc.1 ++ [(e.1, s')], acc.2 ++ [e.1])
        else (acc.1 ++ [e], acc.2)
      else (acc.1 ++ [e], acc.2)) ([], [])
  let blockWrites : List Write := step.2.filterMap fun id =>
    (aget id step.1).map fun s =>
      Write.updShapeBlocks id (s.blocks.map (·.pos)) now
  (step.1,
   [Write.addPoints playerId 10] ++ blockWrites ++ [Write.setRowCompletion y now])

end NetworkManager

/-! ## Bullet (class appended to `src/game/NetworkManager.js`) -/

/-- State of a `Bullet`.  The mesh position always mirrors `position`
(the source copies one into the other on every step), so a single vector
suffices. -/
structure Bullet where
  position : Vec3
  velocity : Vec3
  lifetime : ℚ
  isDead : Bool
deriving DecidableEq

/-- `Bullet.update()` (lines 1120-1149): gravity (0.003), air resistance
(×0.998 on each axis), integration, floor bounce with damping 0.7, a 16 ms
lifetime increment, and the dead-flag update (near-zero vertical speed at
floor level, or lifetime beyond 8000 ms).  Nothing in the manager ever
reads `isDead`. -/
def Bullet.update (b : Bullet) : Bullet :=
  let vy := Qc.sub b.velocity.y (mkRat 3 1000)
  let v : Vec3 := ⟨Qc.mul b.velocity.x (mkRat 998 1000),
                   Qc.mul vy (mkRat 998 1000),
                   Qc.mul b.velocity.z (mkRat 998 1000)⟩
  let p := b.position + v
  let grounded : Bool := decide (p.y ≤ 0)
  let p2 : Vec3 := if grounded then ⟨p.x, 0, p.z⟩ else p
  let v2 : Vec3 :=
    if grounded then ⟨v.x, Qc.mul (Qc.neg v.y) (mkRat 7 10), v.z⟩ else v
  let lt := Qc.add b.lifetime 16
  { position := p2
    velocity := v2
    lifetime := lt
    isDead := b.isDead ||
      ((decide (Qc.habs v2.y < mkRat 1 100) && decide (p2.y ≤ 0)) ||
        decide (8000 < lt)) }

namespace NetworkManager

/-- `NetworkManager.checkBulletCollision(bullet, shape)` (lines 721-737):
first block of the shape within 0.5 on every axis, if any. -/
def checkBulletCollision {A : Type} (bulletPos : Vec3) (s : ShapeState A) :
    Option Vec3 :=
  s.blocks.findSome? fun block =>
    if decide (Qc.habs (Qc.sub bulletPos.x block.pos.x) < mkRat 1 2)
        && decide (Qc.habs (Qc.sub bulletPos.y block.pos.y) < mkRat 1 2)
        && decide (Qc.habs (Qc.sub bulletPos.z block.pos.z) < mkRat 1 2) then
      some block.pos
    else none

/-- First cached shape that is unlocked, active and hit by the bullet
(the collision scan inside `updateBullets`). -/
def findHit {A : Type} (bulletPos : Vec3) :
    List (String × ShapeState A) → Option String
  | [] => none
  | e :: t =>
    if (!e.2.isLocked && e.2.isActive)
        && (checkBulletCollision bulletPos e.2).isSome then some e.1
    else findHit bulletPos t

/-- Result of `updateBullets`: surviving bullets, the (possibly rotated)
shape cache, and the keys of disposed bullets. -/
structure BulletsResult (A : Type) where
  bullets : List ((String × ℚ) × Bullet)
  cache : List (String × ShapeState A)
  disposed : List (String × ℚ)
deriving DecidableEq

/-- `NetworkManager.updateBullets()` (lines 631-684).  A bullet's cache key
`ownerId_timestamp` is modelled as the pair `(ownerId, timestamp)`.  Each
bullet is advanced one physics step; the first unlocked active shape it
touches gets a clockwise rotation started and the bullet is disposed;
independently, a bullet older than 5000 ms of wall-clock time (spawn
timestamp against `Date.now()`) is disposed.  The `isDead` flag set by
`Bullet.update` is never consulted.  (When `startRotation` reports the
source's `TypeError` — offset-less blocks — the model keeps the shape
unchanged; the theorems assume offset-bearing shapes.) -/
def updateBullets (M : AngleModel) (now : ℚ)
    (bullets0 : List ((String × ℚ) × Bullet))
    (cache0 : List (String × ShapeState M.A)) : BulletsResult M.A :=
  bullets0.foldl (fun r kb =>
    let b := Bullet.update kb.2
    match findHit b.position r.cache with
    | some id =>
      let cache' :=
        match aget id r.cache with
        | some s =>
          aset id (((Shape.startRotation M s true).map Prod.snd).getD s) r.cache
        | none => r.cache
      { r with cache := cache', disposed := r.disposed ++ [kb.1] }
    | none =>
      if decide (5000 < Qc.sub now kb.1.2) then
        { r with disposed := r.disposed ++ [kb.1] }
      else
        { r with bullets := r.bullets ++ [(kb.1, b)] })
    { bullets := [], cache := cache0, disposed := [] }

end NetworkManager

/-! ## Players (`NetworkManager.updatePlayers`, lines 202-254) -/

/-- The appearance record stored under `players/{id}/colors`. -/
structure PlayerColors where
  headHue : ℚ
  bodyHue : ℚ
  headLightness : ℚ
deriving DecidableEq

/-- A `players/{id}` store record as consumed by `updatePlayers`. -/
structure PlayerData where
  nickname : Option String
  online : Bool
  lastSeen : ℚ
  colors : Option PlayerColors
deriving DecidableEq

/-- Local `Player` object: the `new Player(scene, null, nickname)` followed
by `setHasOtherPlayers(true, colors)` of the creation path gives it a
figure carrying nickname and colors. -/
structure PlayerObj where
  nickname : String
  hasFigure : Bool
  colors : Option PlayerColors
deriving DecidableEq

/-- Result of one reconciliation pass over the players cache: `created`
counts `new Player` cache insertions, `disposed` counts `dispose` calls. -/
structure PlayersResult where
  cache : List (String × PlayerObj)
  writes : List Write
  created : ℕ
  disposed : ℕ
deriving DecidableEq

namespace NetworkManager

/-- The nickname/colors refresh applied to a (new or cached) player from
the snapshot record (lines 243-249); both require the figure to exist. -/
def applyPlayerAttrs (pl : PlayerObj) (d : PlayerData) : PlayerObj :=
  let pl1 :=
    if truthyStr d.nickname && pl.hasFigure then
      { pl with nickname := d.nickname.getD pl.nickname }
    else pl
  if d.colors.isSome && pl1.hasFigure then { pl1 with colors := d.colors }
  else pl1

/-- `NetworkManager.updatePlayers(players)` (lines 202-254): dispose cached
players that vanished from the snapshot or are flagged offline (deleting
stale offline records from the store after 5 s); then create a local
player for every snapshot entry other than the local client that is not
cached — regardless of its `online` flag — and refresh nickname and
colors. -/
def updatePlayers (now : ℚ) (selfId : String)
    (cache : List (String × PlayerObj)) (snap : List (String × PlayerData)) :
    PlayersResult :=
  let removal :=
    cache.foldl (fun (r : PlayersResult) e =>
      match aget e.1 snap with
      | none => { r with disposed := r.disposed + 1 }
      | some d =>
        if !d.online then
          { r with disposed := r.disposed + 1
                   writes := r.writes ++
                     (if decide (5000 < Qc.sub now d.lastSeen) then
                       [Write.delPlayer e.1, Write.delScore e.1]
                     else []) }
        else { r with cache := r.cache ++ [e] })
      { cache := [], writes := [], created := 0, disposed := 0 }
  snap.foldl (fun r e =>
    if e.1 = selfId then r
    else
      match aget e.1 r.cache with
      | some pl => { r with cache := aset e.1 (applyPlayerAttrs pl e.2) r.cache }
      | none =>
        let plNew : PlayerObj :=
          { nickname := if truthyStr e.2.nickname then e.2.nickname.getD "Unknown"
                        else "Unknown"
            hasFigure := true
            colors := e.2.colors }
        { r with cache := aset e.1 (applyPlayerAttrs plNew e.2)
                   (r.cache ++ [(e.1, plNew)])
                 created := r.created + 1 }) removal

end NetworkManager

/-! ## Derived predicates and simulation drivers -/

namespace Shape

/-- Every block carries its `userData.initialOffset` (true of every shape
the `Shape` constructor builds; false only for block lists replaced from a
store snapshot). -/
def wfBlocks {A : Type} (s : ShapeState A) : Bool :=
  s.blocks.all fun b => b.offset.isSome

/-- Block positions agree with `position` and the stored offsets (the
state of affairs `updateBlockPositions` establishes and every `Shape`
method maintains). -/
def blocksInSync (M : AngleModel) (s : ShapeState M.A) : Bool :=
  s.blocks.all fun b =>
    match b.offset with
    | none => true
    | some o =>
      decide (b.pos =
        s.position + (if s.isRotating then M.rot s.currentRotation o else o))

/-- A freshly spawned piece as `updateShapes` creates it from an
`addShape` record: constructor state, placed at `p`, positions derived. -/
def spawnAt (M : AngleModel) (type : String) (color : ℤ) (p : Vec3) :
    ShapeState M.A :=
  updateBlockPositions M { mkShape M type color false with position := p }

/-- Iterate `Shape.update` over a list of frame timestamps. -/
def runUpdates (M : AngleModel) (s : ShapeState M.A) (ts : List ℚ) :
    ShapeState M.A :=
  ts.foldl (update M) s

/-- The stored offsets of a shape's blocks. -/
def blockOffsets {A : Type} (s : ShapeState A) : List (Option Vec3) :=
  s.blocks.map (·.offset)

/-- Start a clockwise rotation and run `Shape.update` until the quarter
turn completes: at `π/40` per tick a `π/2` target is reached after exactly
20 ticks.  Update timestamps equal the state's `lastFallTime`, so no fall
interval elapses during the animation.  If the rotation is rejected or
cannot start, the state is returned unchanged. -/
def rotateAndSettle (M : AngleModel) (s : ShapeState M.A) : ShapeState M.A :=
  match startRotation M s true with
  | some (some true, s1) =>
    (List.range 20).foldl (fun s _ => update M s s.lastFallTime) s1
  | _ => s

/-- The vertical lift `snapToGrid` applies: `groundLevel - lowestY` when
some block sits at or below ground level, otherwise zero. -/
def snapDelta {A : Type} (s : ShapeState A) : ℚ :=
  match minBlockY s.blocks with
  | none => 0
  | some m => if m ≤ s.groundLevel then s.groundLevel - m else 0

end Shape

/-- The I piece of the end-to-end fall scenario: type "I", spawned at
`(0, 15, 0)` exactly as `spawnNewShape`/`addShape`/`updateShapes` create
it. -/
def iPiece : ShapeState anglesQPi.A :=
  Shape.spawnAt anglesQPi "I" 16711680 ⟨0, 15, 0⟩

/-- One update call per second: frame timestamps 1000, 2000, …, 15000. -/
def fallTimes : List ℚ :=
  (List.range 15).map fun k => (((k + 1) * 1000 : ℕ) : ℚ)

/-- Invariant of the I-piece fall: after `k` gravity steps the piece is
unlocked and not rotating, its base sits at height `15 - k`, its last fall
happened at `tl`, and speed, ground level and block offsets are those of a
fresh I piece. -/
def iFallInv (s : ShapeState anglesQPi.A) (k : ℕ) (tl : ℚ) : Prop :=
  s.isLocked = false ∧ s.isRotating = false ∧ s.position.y = 15 - (k : ℚ) ∧
  s.lastFallTime = tl ∧ s.fallSpeed = 1 ∧ s.groundLevel = 0 ∧
  Shape.blockOffsets s =
    (Shape.getShapeDefinition "I").map fun o => some ⟨o.1, o.2, 0⟩

/-- An I piece parked at `x = 5`: its blocks sit at `x = 4.5`, and the
clockwise quarter turn would carry the lowest block to `x = 5.5`, beyond
the half-grid bound — the rotation must be rejected. -/
def iPieceAtFive : ShapeState anglesQPi.A :=
  Shape.spawnAt anglesQPi "I" 16711680 ⟨5, 15, 0⟩

/-- A locked single-block shape resting on the floor, as `updateShapes`
would cache it from a snapshot record `{type:"X", color:1,
position:(0,1/2,0), isLocked:true, isActive:false}`. -/
def lockedUnit : ShapeState anglesQPi.A :=
  { Shape.spawnAt anglesQPi "X" 1 ⟨0, mkRat 1 2, 0⟩ with
      isLocked := true, isActive := false }

/-- A snapshot record that re-flags a shape as unlocked and active. -/
def unlockData : ShapeData :=
  { type := some "X", color := some 1, position := some ⟨0, mkRat 1 2, 0⟩
    isLocked := some false, isActive := some true, isRotating := some false
    currentRotation := none, blocks := none }

/-- A concrete bullet high above the floor, spawn data for the
bullet-lifetime instances. -/
def bulletA : Bullet :=
  { position := ⟨0, 10, 0⟩, velocity := ⟨0, 0, 0⟩, lifetime := 0
    isDead := false }

/-- A second concrete bullet. -/
def bulletB : Bullet :=
  { position := ⟨1, 8, 0⟩, velocity := ⟨0, 0, 0⟩, lifetime := 0
    isDead := false }

/-- A snapshot record for a player flagged offline. -/
def offlinePlayer : PlayerData :=
  { nickname := none, online := false, lastSeen := 0, colors := none }

/-- A snapshot record for an online player. -/
def onlinePlayer : PlayerData :=
  { nickname := some "Bob", online := true, lastSeen := 0, colors := none }

/-! # Lemmas and claim theorems -/

namespace Shape

theorem map_id_of_mem {α : Type _} (l : List α) (f : α → α)
    (h : ∀ x ∈ l, f x = x) : l.map f = l := by
  induction l with
  | nil => rfl
  | cons a t ih =>
    simp only [List.map_cons]
    rw [h a (by simp), ih fun x hx => h x (by simp [hx])]

@[simp] theorem ubp_position (M : AngleModel) (s : ShapeState M.A) :
    (updateBlockPositions M s).position = s.position := rfl

@[simp] theorem ubp_isLocked (M : AngleModel) (s : ShapeState M.A) :
    (updateBlockPositions M s).isLocked = s.isLocked := rfl

@[simp] theorem ubp_isActive (M : AngleModel) (s : ShapeState M.A) :
    (updateBlockPositions M s).isActive = s.isActive := rfl

@[simp] theorem ubp_isRotating (M : AngleModel) (s : ShapeState M.A) :
    (updateBlockPositions M s).isRotating = s.isRotating := rfl

@[simp] theorem ubp_currentRotation (M : AngleModel) (s : ShapeState M.A) :
    (updateBlockPositions M s).currentRotation = s.currentRotation := rfl

@[simp] theorem ubp_targetRotation (M : AngleModel) (s : ShapeState M.A) :
    (updateBlockPositions M s).targetRotation = s.targetRotation := rfl

@[simp] theorem ubp_rotationSpeed (M : AngleModel) (s : ShapeState M.A) :
    (updateBlockPositions M s).rotationSpeed = s.rotationSpeed := rfl

@[simp] theorem ubp_lastFallTime (M : AngleModel) (s : ShapeState M.A) :
    (updateBlockPositions M s).lastFallTime = s.lastFallTime := rfl

@[simp] theorem ubp_fallSpeed (M : AngleModel) (s : ShapeState M.A) :
    (updateBlockPositions M s).fallSpeed = s.fallSpeed := rfl

@[simp] theorem ubp_groundLevel (M : AngleModel) (s : ShapeState M.A) :
    (updateBlockPositions M s).groundLevel = s.groundLevel := rfl

@[simp] theorem ubp_gridSize (M : AngleModel) (s : ShapeState M.A) :
    (updateBlockPositions M s).gridSize = s.gridSize := rfl

theorem blocksInSync_flags (M : AngleModel) (s : ShapeState M.A)
    (a b : Bool) :
    blocksInSync M { s with isLocked := a, isActive := b } = blocksInSync M s :=
  rfl

theorem wfBlocks_ubp (M : AngleModel) (s : ShapeState M.A) :
    wfBlocks (updateBlockPositions M s) = wfBlocks s := by
  rw [wfBlocks, wfBlocks, updateBlockPositions, List.all_map]
  congr 1
  funext b
  cases h : b.offset <;> simp [Function.comp, h]

theorem blocksInSync_ubp (M : AngleModel) (s : ShapeState M.A) :
    blocksInSync M (updateBlockPositions M s) = true := by
  rw [blocksInSync, List.all_eq_true]
  intro b hb
  rw [updateBlockPositions] at hb
  simp only [List.mem_map] at hb
  obtain ⟨a, _, rfl⟩ := hb
  cases h : a.offset <;> simp [h]

theorem ubp_of_sync (M : AngleModel) (s : ShapeState M.A)
    (h : blocksInSync M s = true) : updateBlockPositions M s = s := by
  rw [blocksInSync, List.all_eq_true] at h
  have hb : s.blocks.map (fun b =>
      match b.offset with
      | none => b
      | some o =>
        { b with pos := s.position +
            (if s.isRotating then M.rot s.currentRotation o else o) }) = s.blocks := by
    apply map_id_of_mem
    intro b hbmem
    have := h b hbmem
    cases ho : b.offset with
    | none => simp [ho]
    | some o =>
      simp only [ho] at this ⊢
      rw [decide_eq_true_iff] at this
      cases b
      simp_all
  rw [updateBlockPositions, hb]

theorem minBlockY_eq_none {bs : List Block} : minBlockY bs = none ↔ bs = [] := by
  cases bs with
  | nil => simp [minBlockY]
  | cons a t =>
    rw [minBlockY]
    cases minBlockY t <;> simp

theorem minBlockY_le {bs : List Block} {m : ℚ} (h : minBlockY bs = some m) :
    ∀ b ∈ bs, m ≤ b.pos.y := by
  induction bs generalizing m with
  | nil => simp [minBlockY] at h
  | cons a t ih =>
    rw [minBlockY] at h
    cases ht : minBlockY t with
    | none =>
      rw [ht] at h
      injection h with h
      subst h
      intro b hb
      rcases List.mem_cons.mp hb with rfl | hmem
      · exact le_refl _
      · exact absurd hmem (by simp [minBlockY_eq_none.mp ht])
    | some mt =>
      rw [ht] at h
      injection h with h
      subst h
      intro b hb
      rcases List.mem_cons.mp hb with rfl | hmem
      · exact min_le_left _ _
      · exact le_trans (min_le_right _ _) (ih ht b hmem)

theorem minBlockY_shift {bs : List Block} {f : Block → Block} {δ : ℚ}
    (h : ∀ b ∈ bs, (f b).pos.y = b.pos.y + δ) :
    minBlockY (bs.map f) = (minBlockY bs).map (· + δ) := by
  induction bs with
  | nil => rfl
  | cons a t ih =>
    simp only [List.map_cons, minBlockY]
    rw [ih fun b hb => h b (by simp [hb])]
    cases ht : minBlockY t with
    | none => simp [h a (by simp)]
    | some mt =>
      simp only [Option.map_some']
      rw [h a (by simp), min_add_add_right]

end Shape

namespace Shape

theorem snapToGrid_eq (M : AngleModel) (s : ShapeState M.A) :
    snapToGrid M s = updateBlockPositions M
      { s with position :=
          ⟨((Qc.roundQ s.position.x : ℤ) : ℚ), s.position.y + snapDelta s,
           s.position.z⟩ } := by
  rw [snapToGrid, snapDelta]
  cases hm : minBlockY s.blocks with
  | none =>
    simp only [hm]
    congr 1
    cases hp : s.position
    simp
  | some m =>
    simp only [hm]
    by_cases hle : m ≤ s.groundLevel
    · simp only [if_pos hle]
      congr 1
      cases hp : s.position
      simp
    · simp only [if_neg hle]
      congr 1
      cases hp : s.position
      simp

@[simp] theorem snap_isLocked (M : AngleModel) (s : ShapeState M.A) :
    (snapToGrid M s).isLocked = s.isLocked := by rw [snapToGrid_eq]; rfl

@[simp] theorem snap_isActive (M : AngleModel) (s : ShapeState M.A) :
    (snapToGrid M s).isActive = s.isActive := by rw [snapToGrid_eq]; rfl

@[simp] theorem snap_isRotating (M : AngleModel) (s : ShapeState M.A) :
    (snapToGrid M s).isRotating = s.isRotating := by rw [snapToGrid_eq]; rfl

@[simp] theorem snap_groundLevel (M : AngleModel) (s : ShapeState M.A) :
    (snapToGrid M s).groundLevel = s.groundLevel := by rw [snapToGrid_eq]; rfl

@[simp] theorem snap_lastFallTime (M : AngleModel) (s : ShapeState M.A) :
    (snapToGrid M s).lastFallTime = s.lastFallTime := by rw [snapToGrid_eq]; rfl

@[simp] theorem snap_fallSpeed (M : AngleModel) (s : ShapeState M.A) :
    (snapToGrid M s).fallSpeed = s.fallSpeed := by rw [snapToGrid_eq]; rfl

@[simp] theorem snap_position_x (M : AngleModel) (s : ShapeState M.A) :
    (snapToGrid M s).position.x = ((Qc.roundQ s.position.x : ℤ) : ℚ) := by
  rw [snapToGrid_eq]; rfl

theorem snap_sync (M : AngleModel) (s : ShapeState M.A) :
    blocksInSync M (snapToGrid M s) = true := by
  rw [snapToGrid_eq]; exact blocksInSync_ubp M _

theorem snap_wf (M : AngleModel) (s : ShapeState M.A)
    (hw : wfBlocks s = true) : wfBlocks (snapToGrid M s) = true := by
  rw [snapToGrid_eq, wfBlocks_ubp]
  exact hw

theorem snap_minBlockY (M : AngleModel) (s : ShapeState M.A)
    (hw : wfBlocks s = true) (hs : blocksInSync M s = true) :
    minBlockY (snapToGrid M s).blocks =
      (minBlockY s.blocks).map (· + snapDelta s) := by
  rw [snapToGrid_eq, updateBlockPositions]
  apply minBlockY_shift
  intro b hb
  rw [wfBlocks, List.all_eq_true] at hw
  rw [blocksInSync, List.all_eq_true] at hs
  have hwb := hw b hb
  have hsb := hs b hb
  cases ho : b.offset with
  | none => rw [ho] at hwb; simp at hwb
  | some o =>
    rw [ho] at hsb
    simp only at hsb
    rw [decide_eq_true_iff] at hsb
    simp only [ho]
    rw [hsb]
    simp [Vec3.add_def]
    ring

theorem snap_block_ge (M : AngleModel) (s : ShapeState M.A)
    (hw : wfBlocks s = true) (hs : blocksInSync M s = true) :
    ∀ b ∈ (snapToGrid M s).blocks, s.groundLevel ≤ b.pos.y := by
  intro b hb
  have hne : (snapToGrid M s).blocks ≠ [] := by
    intro he
    rw [he] at hb
    exact absurd hb (List.not_mem_nil b)
  cases hm' : minBlockY (snapToGrid M s).blocks with
  | none => exact absurd (minBlockY_eq_none.mp hm') hne
  | some m' =>
    refine le_trans ?_ (minBlockY_le hm' b hb)
    rw [snap_minBlockY M s hw hs] at hm'
    cases hm : minBlockY s.blocks with
    | none => rw [hm] at hm'; simp at hm'
    | some m =>
      rw [hm] at hm'
      simp only [Option.map_some'] at hm'
      injection hm' with hm'
      subst hm'
      rw [snapDelta, hm]
      dsimp only
      by_cases hle : m ≤ s.groundLevel
      · rw [if_pos hle]; linarith
      · rw [if_neg hle]; linarith [not_le.mp hle]

theorem rotStep_isLocked (M : AngleModel) (s : ShapeState M.A) :
    (rotationStep M s).isLocked = s.isLocked := by
  rw [rotationStep]
  split
  · rw [ubp_isLocked, snap_isLocked]
  · rw [ubp_isLocked]

theorem rotStep_groundLevel (M : AngleModel) (s : ShapeState M.A) :
    (rotationStep M s).groundLevel = s.groundLevel := by
  rw [rotationStep]
  split
  · rw [ubp_groundLevel, snap_groundLevel]
  · rw [ubp_groundLevel]

theorem rotStep_sync (M : AngleModel) (s : ShapeState M.A) :
    blocksInSync M (rotationStep M s) = true := by
  rw [rotationStep]
  split
  · exact blocksInSync_ubp M _
  · exact blocksInSync_ubp M _

theorem rotStep_wf (M : AngleModel) (s : ShapeState M.A)
    (hw : wfBlocks s = true) : wfBlocks (rotationStep M s) = true := by
  rw [rotationStep]
  split
  · rw [wfBlocks_ubp]
    apply snap_wf
    rw [wfBlocks, List.all_eq_true]
    intro b hb
    simp only [List.mem_map] at hb
    obtain ⟨a, ha, rfl⟩ := hb
    rw [wfBlocks, List.all_eq_true] at hw
    have := hw a ha
    cases ho : a.offset <;> simp [ho] at this ⊢
  · rw [wfBlocks_ubp]
    exact hw

end Shape

namespace Shape

theorem ubp_blockOffsets (M : AngleModel) (s : ShapeState M.A) :
    blockOffsets (updateBlockPositions M s) = blockOffsets s := by
  rw [blockOffsets, blockOffsets, updateBlockPositions, List.map_map]
  congr 1
  funext b
  cases h : b.offset <;> simp [Function.comp, h]

theorem update_locked (M : AngleModel) (s : ShapeState M.A) (t : ℚ)
    (h : s.isLocked = true) : update M s t = s := by
  rw [update, h]
  rfl

theorem runUpdates_locked (M : AngleModel) (s : ShapeState M.A)
    (ts : List ℚ) (h : s.isLocked = true) : runUpdates M s ts = s := by
  induction ts with
  | nil => rfl
  | cons t ts ih =>
    show runUpdates M (update M s t) ts = s
    rw [update_locked M s t h, ih]

theorem fallStep_locked_blocks (M : AngleModel) (s : ShapeState M.A) (t : ℚ)
    (hw : wfBlocks s = true) (hs : blocksInSync M s = true)
    (hl : s.isLocked = false)
    (hlock : (fallStep M s t).isLocked = true) :
    ∀ b ∈ (fallStep M s t).blocks, s.groundLevel ≤ b.pos.y := by
  by_cases h1 : Qc.sub t s.lastFallTime ≥ 1000
  · by_cases h2 : fallWouldCollide M s (Qc.sub s.position.y s.fallSpeed) = true
    · have hX : blocksInSync M
          { snapToGrid M s with isLocked := true, isActive := false } = true := by
        rw [blocksInSync_flags]
        exact snap_sync M s
      have heq : fallStep M s t =
          { snapToGrid M s with isLocked := true, isActive := false } := by
        rw [fallStep, if_pos h1, if_pos h2]
        exact ubp_of_sync M _ hX
      rw [heq]
      intro b hb
      exact snap_block_ge M s hw hs b hb
    · exfalso
      rw [fallStep, if_pos h1, if_neg h2, ubp_isLocked, hl] at hlock
      exact Bool.false_ne_true hlock
  · exfalso
    rw [fallStep, if_neg h1, hl] at hlock
    exact Bool.false_ne_true hlock

end Shape

/-- C3: post-lock floor invariant.  For every offset-bearing shape whose
block positions agree with its base position (the state every `Shape`
method maintains), with the constructor's ground level 0 and not yet
locked: if a `Shape.update` call returns with `isLocked = true`, every
block has vertical position at least 0. -/
theorem C3_postlock_floor_invariant (M : AngleModel) (s : ShapeState M.A)
    (t : ℚ) (hw : Shape.wfBlocks s = true)
    (hs : Shape.blocksInSync M s = true) (hg : s.groundLevel = 0)
    (hl : s.isLocked = false)
    (hlock : (Shape.update M s t).isLocked = true) :
    ∀ b ∈ (Shape.update M s t).blocks, 0 ≤ b.pos.y := by
  have hu : Shape.update M s t =
      Shape.fallStep M (if s.isRotating then Shape.rotationStep M s else s) t := by
    rw [Shape.update, hl]
    rfl
  rw [hu] at hlock ⊢
  by_cases hr : s.isRotating = true
  · rw [if_pos hr] at hlock ⊢
    have h1 := Shape.fallStep_locked_blocks M (Shape.rotationStep M s) t
      (Shape.rotStep_wf M s hw) (Shape.rotStep_sync M s)
      (by rw [Shape.rotStep_isLocked]; exact hl) hlock
    intro b hb
    have := h1 b hb
    rwa [Shape.rotStep_groundLevel, hg] at this
  · rw [if_neg hr] at hlock ⊢
    have h1 := Shape.fallStep_locked_blocks M s t hw hs hl hlock
    intro b hb
    have := h1 b hb
    rwa [hg] at this

/-- Witness for C3: an I piece one unit above the floor locks on the next
one-second tick with every block at or above the floor. -/
theorem C3_witness :
    (Shape.update anglesQPi (Shape.spawnAt anglesQPi "I" 255 ⟨0, 1, 0⟩)
        1000).isLocked = true ∧
    ∀ b ∈ (Shape.update anglesQPi (Shape.spawnAt anglesQPi "I" 255 ⟨0, 1, 0⟩)
        1000).blocks, 0 ≤ b.pos.y :=
  ⟨by decide,
   C3_postlock_floor_invariant anglesQPi
     (Shape.spawnAt anglesQPi "I" 255 ⟨0, 1, 0⟩) 1000
     (by decide) (by decide) (by decide) (by decide) (by decide)⟩

namespace Shape

theorem fallWouldCollide_offsets (M : AngleModel) (s : ShapeState M.A)
    (nY : ℚ) (hr : s.isRotating = false) :
    fallWouldCollide M s nY = (blockOffsets s).any fun oo =>
      match oo with
      | none => false
      | some o => decide (Qc.add nY o.y ≤ s.groundLevel) := by
  rw [fallWouldCollide, blockOffsets]
  induction s.blocks with
  | nil => rfl
  | cons b t ih =>
    simp only [List.any_cons, List.map_cons, ih]
    congr 1
    cases h : b.offset <;> simp [h, hr]

theorem update_unlocked_notRotating (M : AngleModel) (s : ShapeState M.A)
    (t : ℚ) (hl : s.isLocked = false) (hr : s.isRotating = false) :
    update M s t = fallStep M s t := by
  rw [update, hl, hr]
  rfl

end Shape

theorem iFall_step (s : ShapeState anglesQPi.A) (k : ℕ) (tl t : ℚ)
    (hk : k ≤ 14) (htl : 1000 * (k : ℚ) ≤ tl) (hinv : iFallInv s k tl) :
    ((Shape.update anglesQPi s t).isLocked = true → 15000 ≤ t) ∧
    ((Shape.update anglesQPi s t).isLocked = false →
      ∃ k' : ℕ, ∃ tl' : ℚ, k' ≤ 14 ∧ 1000 * (k' : ℚ) ≤ tl' ∧
        iFallInv (Shape.update anglesQPi s t) k' tl') := by
  obtain ⟨hl, hr, hy, hlf, hfs, hgl, hoffs⟩ := hinv
  rw [Shape.update_unlocked_notRotating anglesQPi s t hl hr]
  by_cases h1 : Qc.sub t s.lastFallTime ≥ 1000
  · have ht' : tl + 1000 ≤ t := by
      rw [Qc.sub_eq, hlf] at h1
      linarith
    have hyv : Qc.sub s.position.y s.fallSpeed = 14 - (k : ℚ) := by
      rw [Qc.sub_eq, hy, hfs]
      ring
    have hdef : Shape.getShapeDefinition "I" =
        [(mkRat (-1) 2, mkRat (-1) 2), (mkRat (-1) 2, mkRat 1 2),
         (mkRat (-1) 2, mkRat 3 2), (mkRat (-1) 2, mkRat 5 2)] := by decide
    rcases Nat.lt_or_ge k 14 with hk13 | hk14
    · -- k ≤ 13: the piece descends one step
      have hkq : (k : ℚ) ≤ 13 := by
        have : k ≤ 13 := Nat.lt_succ_iff.mp hk13
        exact_mod_cast this
      have hnc : Shape.fallWouldCollide anglesQPi s
          (Qc.sub s.position.y s.fallSpeed) = false := by
        rw [Shape.fallWouldCollide_offsets _ _ _ hr, hoffs, hyv, hdef,
          List.any_eq_false]
        intro oo hmem
        rw [List.mem_map] at hmem
        obtain ⟨o, ho, rfl⟩ := hmem
        simp only [List.mem_cons, List.not_mem_nil, or_false] at ho
        rcases ho with rfl | rfl | rfl | rfl <;>
        · simp only [Qc.add_eq, Rat.mkRat_eq_div, hgl, decide_eq_true_eq]
          norm_num
          linarith
      rw [Shape.fallStep, if_pos h1, hnc]
      simp only [Bool.false_eq_true, if_false]
      constructor
      · intro habs2
        rw [Shape.ubp_isLocked] at habs2
        exact absurd habs2 (by rw [hl]; simp)
      · intro _
        refine ⟨k + 1, t, by omega, by push_cast; linarith, ?_⟩
        refine ⟨by rw [Shape.ubp_isLocked]; exact hl,
                by rw [Shape.ubp_isRotating]; exact hr, ?_, ?_,
                by rw [Shape.ubp_fallSpeed]; exact hfs,
                by rw [Shape.ubp_groundLevel]; exact hgl, ?_⟩
        · rw [Shape.ubp_position]
          show Qc.sub s.position.y s.fallSpeed = 15 - ((k + 1 : ℕ) : ℚ)
          rw [hyv]
          push_cast
          ring
        · rw [Shape.ubp_lastFallTime]
        · rw [Shape.ubp_blockOffsets]
          exact hoffs
    · -- k = 14: the prospective step collides and the piece locks
      have hkq : (k : ℚ) = 14 := by
        have : k = 14 := le_antisymm hk hk14
        exact_mod_cast this
      have hc : Shape.fallWouldCollide anglesQPi s
          (Qc.sub s.position.y s.fallSpeed) = true := by
        rw [Shape.fallWouldCollide_offsets _ _ _ hr, hoffs, hyv, hdef,
          List.any_eq_true]
        refine ⟨some ⟨mkRat (-1) 2, mkRat (-1) 2, 0⟩, ?_, ?_⟩
        · simp
        · simp only [Qc.add_eq, Rat.mkRat_eq_div, hgl, hkq, decide_eq_true_eq]
          norm_num
      rw [Shape.fallStep, if_pos h1, hc]
      simp only [if_true]
      constructor
      · intro _
        have : (1000 : ℚ) * 14 ≤ tl := by rw [← hkq]; exact htl
        linarith
      · intro habs2
        rw [Shape.ubp_isLocked] at habs2
        simp at habs2
  · rw [Shape.fallStep, if_neg h1]
    constructor
    · intro habs2
      rw [hl] at habs2
      exact absurd habs2 (by simp)
    · intro _
      exact ⟨k, tl, hk, htl, hl, hr, hy, hlf, hfs, hgl, hoffs⟩

theorem iFall_run (ts : List ℚ) :
    ∀ (s : ShapeState anglesQPi.A) (k : ℕ) (tl : ℚ), k ≤ 14 →
      1000 * (k : ℚ) ≤ tl → iFallInv s k tl →
      (((Shape.runUpdates anglesQPi s ts).isLocked = false →
        ∃ k' : ℕ, ∃ tl' : ℚ, k' ≤ 14 ∧ 1000 * (k' : ℚ) ≤ tl' ∧
          iFallInv (Shape.runUpdates anglesQPi s ts) k' tl') ∧
      ((Shape.runUpdates anglesQPi s ts).isLocked = true →
        ∃ t ∈ ts, 15000 ≤ t)) := by
  induction ts with
  | nil =>
    intro s k tl hk htl hinv
    constructor
    · intro _
      exact ⟨k, tl, hk, htl, hinv⟩
    · intro habs2
      have hnil : Shape.runUpdates anglesQPi s [] = s := rfl
      rw [hnil, hinv.1] at habs2
      exact absurd habs2 (by simp)
  | cons t ts ih =>
    intro s k tl hk htl hinv
    have hstep := iFall_step s k tl t hk htl hinv
    have hrun : Shape.runUpdates anglesQPi s (t :: ts) =
        Shape.runUpdates anglesQPi (Shape.update anglesQPi s t) ts := rfl
    cases hcase : (Shape.update anglesQPi s t).isLocked with
    | false =>
      obtain ⟨k', tl', hk', htl', hinv'⟩ := hstep.2 hcase
      have := ih (Shape.update anglesQPi s t) k' tl' hk' htl' hinv'
      constructor
      · intro hfin
        rw [hrun] at hfin ⊢
        exact this.1 hfin
      · intro hfin
        rw [hrun] at hfin
        obtain ⟨t', ht'mem, ht'⟩ := this.2 hfin
        exact ⟨t', by simp [ht'mem], ht'⟩
    | true =>
      have hfix : Shape.runUpdates anglesQPi s (t :: ts) =
          Shape.update anglesQPi s t := by
        rw [hrun]
        exact Shape.runUpdates_locked anglesQPi _ ts hcase
      constructor
      · intro hfin
        rw [hfix, hcase] at hfin
        exact absurd hfin (by simp)
      · intro _
        exact ⟨t, by simp, hstep.1 hcase⟩

/-- C4 (amended): when `Shape.update` locks a non-rotating falling piece,
the base x is rounded to the nearest integer and the lowest block ends at
`max(groundLevel, its current height)` — it is lifted exactly to the floor
only when it was at or below it, and otherwise keeps its sub-unit height.
In particular the I piece spawned at `(0,15,0)` locks no earlier than
simulated time 15000 ms, and the run with one update per second locks at
15000 ms with its lowest block at `y = 1/2` (not `y = 0`: the block
centres of a spawned piece sit at half-unit heights and the snap only
lifts pieces that reached the floor). -/
theorem C4_lock_snap_and_i_piece :
    (∀ (M : AngleModel) (s : ShapeState M.A) (t : ℚ),
      Shape.wfBlocks s = true → Shape.blocksInSync M s = true →
      s.isRotating = false → s.isLocked = false →
      (Shape.update M s t).isLocked = true →
      (Shape.update M s t).position.x = ((round s.position.x : ℤ) : ℚ) ∧
      Shape.minBlockY (Shape.update M s t).blocks =
        (Shape.minBlockY s.blocks).map
          (fun m => if m ≤ s.groundLevel then s.groundLevel else m)) ∧
    (∀ (ts : List ℚ) (t : ℚ),
      (Shape.runUpdates anglesQPi iPiece ts).isLocked = false →
      (Shape.update anglesQPi (Shape.runUpdates anglesQPi iPiece ts) t).isLocked
        = true →
      15000 ≤ t) ∧
    ((Shape.runUpdates anglesQPi iPiece fallTimes).isLocked = true ∧
      Shape.minBlockY (Shape.runUpdates anglesQPi iPiece fallTimes).blocks =
        some (mkRat 1 2)) := by
  refine ⟨?_, ?_, by decide⟩
  · intro M s t hw hs hr hl hlock
    rw [Shape.update_unlocked_notRotating M s t hl hr] at hlock ⊢
    by_cases h1 : Qc.sub t s.lastFallTime ≥ 1000
    · by_cases h2 : Shape.fallWouldCollide M s
          (Qc.sub s.position.y s.fallSpeed) = true
      · have hX : Shape.blocksInSync M
            { Shape.snapToGrid M s with isLocked := true, isActive := false }
            = true := by
          rw [Shape.blocksInSync_flags]
          exact Shape.snap_sync M s
        have heq : Shape.fallStep M s t =
            { Shape.snapToGrid M s with isLocked := true, isActive := false } := by
          rw [Shape.fallStep, if_pos h1, if_pos h2]
          exact Shape.ubp_of_sync M _ hX
        rw [heq]
        constructor
        · show (Shape.snapToGrid M s).position.x = _
          rw [Shape.snap_position_x, Qc.roundQ_eq]
        · show Shape.minBlockY (Shape.snapToGrid M s).blocks = _
          rw [Shape.snap_minBlockY M s hw hs]
          cases hm : Shape.minBlockY s.blocks with
          | none => rfl
          | some m =>
            simp only [Option.map_some']
            rw [Shape.snapDelta, hm]
            dsimp only
            by_cases hle : m ≤ s.groundLevel
            · rw [if_pos hle, if_pos hle]
              congr 1
              ring
            · rw [if_neg hle, if_neg hle]
              congr 1
              ring
      · exfalso
        rw [Shape.fallStep, if_pos h1, if_neg h2, Shape.ubp_isLocked, hl]
          at hlock
        exact Bool.false_ne_true hlock
    · exfalso
      rw [Shape.fallStep, if_neg h1, hl] at hlock
      exact Bool.false_ne_true hlock
  · intro ts t hnot hlock
    have hinv0 : iFallInv iPiece 0 0 := by
      refine ⟨by decide, by decide, ?_, by decide, by decide, by decide,
        by decide⟩
      have hy : iPiece.position.y = 15 := by decide
      rw [hy]
      norm_num
    have hrun := (iFall_run ts iPiece 0 0 (by norm_num)
      (by norm_num) hinv0).1 hnot
    obtain ⟨k', tl', hk', htl', hinv'⟩ := hrun
    exact (iFall_step _ k' tl' t hk' htl' hinv').1 hlock

/-- Counterexample to C4 as stated: the I piece spawned at `(0,15,0)` and
updated once per second locks with its lowest block at `y = 1/2`, not at
`y = 0` as the claim asserts. -/
theorem C4_counterexample :
    (Shape.runUpdates anglesQPi iPiece fallTimes).isLocked = true ∧
    Shape.minBlockY (Shape.runUpdates anglesQPi iPiece fallTimes).blocks =
      some (mkRat 1 2) ∧
    Shape.minBlockY (Shape.runUpdates anglesQPi iPiece fallTimes).blocks ≠
      some 0 := by
  decide

/-- Witness for C4 (amended): an I piece at `x = 1/5`, one unit above the
floor, locks on the next tick with its base x rounded to 0 and its lowest
block kept at height 1/2. -/
theorem C4_witness :
    (Shape.update anglesQPi
        (Shape.spawnAt anglesQPi "I" 255 ⟨mkRat 1 5, 1, 0⟩) 1000).position.x =
      ((round ((Shape.spawnAt anglesQPi "I" 255
          ⟨mkRat 1 5, 1, 0⟩).position.x) : ℤ) : ℚ) ∧
    Shape.minBlockY (Shape.update anglesQPi
        (Shape.spawnAt anglesQPi "I" 255 ⟨mkRat 1 5, 1, 0⟩) 1000).blocks =
      (Shape.minBlockY (Shape.spawnAt anglesQPi "I" 255
          ⟨mkRat 1 5, 1, 0⟩).blocks).map
        (fun m => if m ≤ (Shape.spawnAt anglesQPi "I" 255
            ⟨mkRat 1 5, 1, 0⟩).groundLevel
          then (Shape.spawnAt anglesQPi "I" 255 ⟨mkRat 1 5, 1, 0⟩).groundLevel
          else m) :=
  C4_lock_snap_and_i_piece.1 anglesQPi
    (Shape.spawnAt anglesQPi "I" 255 ⟨mkRat 1 5, 1, 0⟩) 1000
    (by decide) (by decide) (by decide) (by decide) (by decide)

/-- C5 (amended): when the quarter-turn target would carry some block
beyond half the grid (|x| > 5), `Shape.startRotation` returns `false` and
leaves blocks, position and all flags unchanged — but it does not restore
`rotationSpeed` and `targetRotation`, which keep the attempted rotation's
parameters, and it resets `currentRotation` to 0. -/
theorem C5_rejected_rotation_state (M : AngleModel) (s : ShapeState M.A)
    (cw : Bool) (ha : s.isActive = true) (hr : s.isRotating = false)
    (hl : s.isLocked = false) (hw : Shape.wfBlocks s = true)
    (hv : Shape.rotationWouldBeValid M s cw = false) :
    Shape.startRotation M s cw = some (some false,
      { s with
          rotationSpeed := M.ofQPi (if cw then mkRat 1 40 else mkRat (-1) 40),
          targetRotation := M.ofQPi (if cw then mkRat 1 2 else mkRat (-1) 2),
          currentRotation := M.ofQPi 0 }) := by
  have hany : (s.blocks.any fun b => b.offset.isNone) = false := by
    rw [List.any_eq_false]
    intro b hb
    rw [Shape.wfBlocks, List.all_eq_true] at hw
    have := hw b hb
    simp only [Option.isNone_iff_eq_none]
    intro hno
    rw [hno] at this
    exact absurd this (by simp)
  rw [Shape.startRotation, hr]
  simp only [Bool.false_eq_true, if_false, hany, hv]

/-- Counterexample to C5 as stated: an I piece parked at `x = 5` has its
clockwise rotation rejected, yet the returned state differs from the
original — `targetRotation` now holds `π/2` instead of the constructor's
`0`. -/
theorem C5_counterexample :
    Shape.startRotation anglesQPi iPieceAtFive true = some (some false,
      { iPieceAtFive with
          rotationSpeed := anglesQPi.ofQPi (mkRat 1 40),
          targetRotation := anglesQPi.ofQPi (mkRat 1 2),
          currentRotation := anglesQPi.ofQPi 0 }) ∧
    (Shape.startRotation anglesQPi iPieceAtFive true).map Prod.snd ≠
      some iPieceAtFive := by
  decide

/-- Witness for C5 (amended): the rejected rotation of the I piece at
`x = 5` produces exactly the state the amended claim describes. -/
theorem C5_witness :
    Shape.startRotation anglesQPi iPieceAtFive true = some (some false,
      { iPieceAtFive with
          rotationSpeed := anglesQPi.ofQPi (if true then mkRat 1 40
            else mkRat (-1) 40),
          targetRotation := anglesQPi.ofQPi (if true then mkRat 1 2
            else mkRat (-1) 2),
          currentRotation := anglesQPi.ofQPi 0 }) :=
  C5_rejected_rotation_state anglesQPi iPieceAtFive true
    (by decide) (by decide) (by decide) (by decide) (by decide)

/-- C6: for every piece type, four started-and-completed clockwise quarter
turns return every block's stored offset (`userData.initialOffset`)
exactly to its original value (the model's quarter turns are exact where
the source is exact up to floating point). -/
theorem C6_quadruple_rotation_identity :
    ∀ ty ∈ (["I", "O", "T", "L", "S"] : List String),
      Shape.blockOffsets
        (Shape.rotateAndSettle anglesQPi (Shape.rotateAndSettle anglesQPi
          (Shape.rotateAndSettle anglesQPi (Shape.rotateAndSettle anglesQPi
            (Shape.spawnAt anglesQPi ty 255 ⟨0, 15, 0⟩))))) =
      Shape.blockOffsets (Shape.spawnAt anglesQPi ty 255 ⟨0, 15, 0⟩) := by
  decide

/-- Witness for C6: the identity instantiated at the I piece. -/
theorem C6_witness :
    Shape.blockOffsets
      (Shape.rotateAndSettle anglesQPi (Shape.rotateAndSettle anglesQPi
        (Shape.rotateAndSettle anglesQPi (Shape.rotateAndSettle anglesQPi
          (Shape.spawnAt anglesQPi "I" 255 ⟨0, 15, 0⟩))))) =
    Shape.blockOffsets (Shape.spawnAt anglesQPi "I" 255 ⟨0, 15, 0⟩) :=
  C6_quadruple_rotation_identity "I" (by decide)

/-! ## Association-list and reconciliation lemmas -/

theorem aget_aset_self {β : Type _} (id : String) (v : β)
    (l : List (String × β)) :
    aget id (aset id v l) = (aget id l).map fun _ => v := by
  induction l with
  | nil => rfl
  | cons e t ih =>
    rw [aset, List.map_cons]
    by_cases h : e.1 = id
    · rw [if_pos h, aget, if_pos rfl, aget, if_pos h]
      rfl
    · rw [if_neg h, aget, if_neg h, aget, if_neg h]
      exact ih

theorem aget_aset_ne {β : Type _} (id id' : String) (v : β)
    (l : List (String × β)) (h : id' ≠ id) :
    aget id' (aset id v l) = aget id' l := by
  induction l with
  | nil => rfl
  | cons e t ih =>
    rw [aset, List.map_cons]
    by_cases he : e.1 = id
    · rw [if_pos he, aget, aget]
      have h1 : ¬((id, v).1 = id') := fun hc => h hc.symm
      have h2 : ¬(e.1 = id') := fun hc => h (hc.symm.trans he)
      rw [if_neg h1, if_neg h2]
      exact ih
    · rw [if_neg he, aget, aget]
      by_cases he' : e.1 = id'
      · rw [if_pos he', if_pos he']
      · rw [if_neg he', if_neg he']
        exact ih

theorem aget_append {β : Type _} (id : String) (l1 l2 : List (String × β)) :
    aget id (l1 ++ l2) =
      match aget id l1 with
      | some v => some v
      | none => aget id l2 := by
  induction l1 with
  | nil => rfl
  | cons e t ih =>
    rw [List.cons_append, aget, aget]
    by_cases h : e.1 = id
    · rw [if_pos h, if_pos h]
    · rw [if_neg h, if_neg h]
      exact ih

theorem aget_filter_key {β : Type _} (id : String) (p : String → Bool)
    (l : List (String × β)) :
    aget id (l.filter fun e => p e.1) =
      if p id then aget id l else none := by
  induction l with
  | nil => simp [aget]
  | cons e t ih =>
    rw [List.filter_cons]
    by_cases hp : p e.1 = true
    · rw [if_pos hp, aget]
      by_cases h : e.1 = id
      · rw [if_pos h, aget, if_pos h, if_pos (h ▸ hp)]
      · rw [if_neg h, ih,
          show aget id (e :: t) = aget id t from by rw [aget, if_neg h]]
    · rw [if_neg hp, ih]
      by_cases h : e.1 = id
      · have hpid : p id = false := by
          rw [← h]
          simpa using hp
        rw [hpid]
        simp
      · rw [show aget id (e :: t) = aget id t from by rw [aget, if_neg h]]

namespace NetworkManager

theorem updateShapesStep_aget_ne (M : AngleModel) (now : ℚ)
    (r : ShapesResult M.A) (e : String × Option ShapeData) (id : String)
    (h : e.1 ≠ id) :
    aget id (updateShapesStep M now r e).cache = aget id r.cache := by
  cases he2 : e.2 with
  | none => simp only [updateShapesStep, he2]
  | some d =>
    cases hc : aget e.1 r.cache with
    | some s =>
      simp only [updateShapesStep, he2, hc]
      rw [aget_aset_ne _ _ _ _ (fun hc2 => h hc2.symm)]
    | none =>
      cases hcr : createFromData M d with
      | none => simp only [updateShapesStep, he2, hc, hcr]
      | some sNew =>
        simp only [updateShapesStep, he2, hc, hcr]
        rw [aget_aset_ne _ _ _ _ (fun hc2 => h hc2.symm), aget_append]
        cases hr : aget id r.cache with
        | some v => rfl
        | none =>
          dsimp only
          rw [aget, if_neg h]
          rfl

theorem updateShapes_foldl_aget_ne (M : AngleModel) (now : ℚ)
    (l : List (String × Option ShapeData)) (r : ShapesResult M.A)
    (id : String) (h : id ∉ l.map Prod.fst) :
    aget id (l.foldl (updateShapesStep M now) r).cache = aget id r.cache := by
  induction l generalizing r with
  | nil => rfl
  | cons e t ih =>
    rw [List.foldl_cons]
    rw [List.map_cons, List.mem_cons] at h
    push_neg at h
    rw [ih _ h.2, updateShapesStep_aget_ne M now r e id (fun hc => h.1 hc.symm)]

theorem updateShapes_aget_mem (M : AngleModel) (now : ℚ)
    (cache : List (String × ShapeState M.A))
    (snap : List (String × Option ShapeData)) (id : String) (d : ShapeData)
    (s : ShapeState M.A) (hnd : (snap.map Prod.fst).Nodup)
    (hmem : (id, some d) ∈ snap) (hs : aget id cache = some s) :
    aget id (updateShapes M now cache snap).cache =
      some (updateExisting M now s d).1 := by
  obtain ⟨l1, l2, rfl⟩ := List.append_of_mem hmem
  have hid1 : id ∉ l1.map Prod.fst := by
    intro hin
    rw [List.map_append, List.map_cons] at hnd
    have := (List.nodup_append.mp hnd).2.2
    exact this hin (by simp)
  have hid2 : id ∉ l2.map Prod.fst := by
    rw [List.map_append, List.map_cons] at hnd
    have := (List.nodup_append.mp hnd).2.1
    exact fun hin => (List.nodup_cons.mp this).1 hin
  rw [updateShapes]
  rw [List.foldl_append, List.foldl_cons]
  rw [updateShapes_foldl_aget_ne M now l2 _ id hid2]
  have hstart : aget id (cache.filter fun e =>
      decide (e.1 ∈ (l1 ++ (id, some d) :: l2).map Prod.fst)) = some s := by
    rw [aget_filter_key id
      (fun k => decide (k ∈ List.map Prod.fst (l1 ++ (id, some d) :: l2)))
      cache]
    rw [if_pos (by simp), hs]
  have hmid : aget id ((l1.foldl (updateShapesStep M now)
      { cache := cache.filter fun e =>
          decide (e.1 ∈ (l1 ++ (id, some d) :: l2).map Prod.fst)
        writes := []
        created := 0
        disposed := cache.length - (cache.filter fun e =>
          decide (e.1 ∈ (l1 ++ (id, some d) :: l2).map Prod.fst)).length
        : ShapesResult M.A }).cache) = some s := by
    rw [updateShapes_foldl_aget_ne M now l1 _ id hid1]
    exact hstart
  simp only [updateShapesStep, hmid, aget_aset_self, Option.map_some']

end NetworkManager

namespace NetworkManager

theorem updateExisting_position_keep (M : AngleModel) (now : ℚ)
    (s : ShapeState M.A) (d : ShapeData) (p : Vec3)
    (hp : d.position = some p) (hl : s.isLocked = false)
    (hy : s.position.y < p.y) :
    (updateExisting M now s d).1.position = s.position := by
  have h1 : ¬ (p.y ≤ s.position.y) := not_le.mpr hy
  simp only [updateExisting, hp, hl, Bool.not_false, if_true, if_neg h1]
  cases hcr : d.currentRotation <;> cases hbl : d.blocks <;>
    · dsimp only
      split <;> simp [Shape.ubp_position]

end NetworkManager

/-- C10: remote position updates never move an existing unlocked cached
shape upward.  When `updateShapes` processes a snapshot entry for a cached
unlocked shape whose remote `position.y` is strictly above the current
one, the shape's position is untouched; and whenever the position did
change, the remote `y` was at or below the current one. -/
theorem C10_no_upward_remote_moves (M : AngleModel) (now : ℚ)
    (cache : List (String × ShapeState M.A))
    (snap : List (String × Option ShapeData)) (id : String) (d : ShapeData)
    (p : Vec3) (s : ShapeState M.A)
    (hnd : (snap.map Prod.fst).Nodup)
    (hmem : (id, some d) ∈ snap)
    (hcache : aget id cache = some s)
    (hpos : d.position = some p)
    (hlock : s.isLocked = false) :
    (s.position.y < p.y →
      ∃ s', aget id (NetworkManager.updateShapes M now cache snap).cache =
          some s' ∧ s'.position = s.position) ∧
    (∀ s', aget id (NetworkManager.updateShapes M now cache snap).cache =
        some s' → s'.position ≠ s.position → p.y ≤ s.position.y) := by
  have hres := NetworkManager.updateShapes_aget_mem M now cache snap id d s
    hnd hmem hcache
  constructor
  · intro hy
    exact ⟨(NetworkManager.updateExisting M now s d).1, hres,
      NetworkManager.updateExisting_position_keep M now s d p hpos hlock hy⟩
  · intro s' hs' hne
    by_contra hgt
    push_neg at hgt
    apply hne
    rw [hres] at hs'
    injection hs' with hs'
    rw [← hs']
    exact NetworkManager.updateExisting_position_keep M now s d p hpos hlock hgt

/-- Witness for C10: a cached unlocked shape at `y = 5` receives a remote
record at `y = 9`; its position is left unchanged. -/
theorem C10_witness :
    ∃ s', aget "a" (NetworkManager.updateShapes anglesQPi 0
        [("a", Shape.spawnAt anglesQPi "I" 255 ⟨0, 5, 0⟩)]
        [("a", some { type := some "I", color := some 255
                      position := some ⟨0, 9, 0⟩
                      isLocked := some false, isActive := some true
                      isRotating := some false, currentRotation := none
                      blocks := none })]).cache = some s' ∧
      s'.position = (Shape.spawnAt anglesQPi "I" 255 ⟨0, 5, 0⟩).position :=
  (C10_no_upward_remote_moves anglesQPi 0
    [("a", Shape.spawnAt anglesQPi "I" 255 ⟨0, 5, 0⟩)]
    [("a", some { type := some "I", color := some 255
                  position := some ⟨0, 9, 0⟩
                  isLocked := some false, isActive := some true
                  isRotating := some false, currentRotation := none
                  blocks := none })] "a"
    { type := some "I", color := some 255, position := some ⟨0, 9, 0⟩
      isLocked := some false, isActive := some true, isRotating := some false
      currentRotation := none, blocks := none }
    ⟨0, 9, 0⟩ (Shape.spawnAt anglesQPi "I" 255 ⟨0, 5, 0⟩)
    (by decide) (by decide) (by decide) (by decide) (by decide)).1 (by decide)

/-- C2 (amended): locking is terminal for the local simulation operations —
`Shape.update` is the identity on locked shapes, `Shape.startRotation` and
`Shape.moveSideways` never modify `isLocked` or `isActive`, and
`NetworkManager.updateShapeState` mutates no local state and, for an
inactive cached shape, emits no store patch unless the patch itself sets
`isLocked` to `true`.  (`NetworkManager.updateShapes` is excluded: it
overwrites the flags with the remote snapshot's values and can unlock a
locked shape — see the counterexample.) -/
theorem C2_locking_terminality :
    (∀ (M : AngleModel) (s : ShapeState M.A) (t : ℚ),
      s.isLocked = true → Shape.update M s t = s) ∧
    (∀ (M : AngleModel) (s : ShapeState M.A) (cw : Bool) (r : Option Bool)
      (s' : ShapeState M.A), Shape.startRotation M s cw = some (r, s') →
      s'.isLocked = s.isLocked ∧ s'.isActive = s.isActive) ∧
    (∀ (M : AngleModel) (s : ShapeState M.A) (dx : ℚ),
      (Shape.moveSideways M s dx).2.isLocked = s.isLocked ∧
      (Shape.moveSideways M s dx).2.isActive = s.isActive) ∧
    (∀ (M : AngleModel) (now lastShapeUpdate : ℚ)
      (cache : List (String × ShapeState M.A)) (id : String)
      (st : NetworkManager.ShapePatch) (shape : ShapeState M.A),
      aget id cache = some shape → shape.isActive = false →
      (NetworkManager.updateShapeState M now lastShapeUpdate cache id st).1
          = [] ∨ st.isLocked = some true) := by
  refine ⟨Shape.update_locked, ?_, ?_, ?_⟩
  · intro M s cw r s' h
    cases hr : s.isRotating with
    | true =>
      rw [Shape.startRotation, hr] at h
      simp only [if_true] at h
      injection h with h
      injection h with h1 h2
      subst h2
      exact ⟨rfl, rfl⟩
    | false =>
      rw [Shape.startRotation, hr] at h
      simp only [Bool.false_eq_true, if_false] at h
      by_cases hany : (s.blocks.any fun b => b.offset.isNone) = true
      · rw [if_pos hany] at h
        exact absurd h (by simp)
      · rw [if_neg hany] at h
        by_cases hv : Shape.rotationWouldBeValid M s cw = true
        · rw [if_pos hv] at h
          injection h with h
          injection h with h1 h2
          subst h2
          exact ⟨by rw [Shape.ubp_isLocked], by rw [Shape.ubp_isActive]⟩
        · rw [if_neg hv] at h
          injection h with h
          injection h with h1 h2
          subst h2
          exact ⟨rfl, rfl⟩
  · intro M s dx
    rw [Shape.moveSideways]
    dsimp only
    split
    · exact ⟨by rw [Shape.ubp_isLocked], by rw [Shape.ubp_isActive]⟩
    · exact ⟨rfl, rfl⟩
  · intro M now lastShapeUpdate cache id st shape hsh hact
    by_cases hsl : st.isLocked = some true
    · exact Or.inr hsl
    · left
      rw [NetworkManager.updateShapeState, hsh]
      dsimp only
      rw [if_pos]
      rw [hact]
      simp [hsl]

/-- Counterexample to C2 as stated: `NetworkManager.updateShapes` applied
to a snapshot record with `isLocked:false` re-unlocks a locked cached
shape. -/
theorem C2_counterexample :
    lockedUnit.isLocked = true ∧
    (aget "s1" (NetworkManager.updateShapes anglesQPi 0 [("s1", lockedUnit)]
        [("s1", some unlockData)]).cache).map (fun s => s.isLocked) =
      some false := by
  decide

/-- Witness for C2 (amended): `Shape.update` leaves a locked unit shape
exactly as it is. -/
theorem C2_witness :
    Shape.update anglesQPi lockedUnit 5000 = lockedUnit :=
  C2_locking_terminality.1 anglesQPi lockedUnit 5000 (by decide)

namespace NetworkManager

theorem cleanup_writes_delShape {A : Type} (cache : List (String × ShapeState A)) :
    ∀ w ∈ (cleanupFloatingShapes cache).2, ∃ i, w = Write.delShape i := by
  intro w hw
  rw [cleanupFloatingShapes] at hw
  dsimp only at hw
  rw [List.mem_map] at hw
  obtain ⟨e, _, rfl⟩ := hw
  exact ⟨e.1, rfl⟩

theorem handleGameStateUpdate_eq (M : AngleModel) (pid : String)
    (gs : GameState) (cache : List (String × ShapeState M.A))
    (players : List String) (t : ℚ) (sid sty : String) (sc : ℤ) (sx : ℚ) :
    handleGameStateUpdate M pid (some gs) cache players t sid sty sc sx =
      ((cleanupFloatingShapes cache).1,
       if ((cleanupFloatingShapes cache).1.any fun e =>
            e.2.isActive && !e.2.isLocked) = false ∧
          gs.currentShapeId = none ∧ 1000 < t - gs.lastSpawnTime ∧
          (players = [] ∨ players.head? = some pid)
       then (cleanupFloatingShapes cache).2 ++
         [Write.updGameState none (some (some "spawning")) (some t)] ++
         addShape pid sid sty sc ⟨sx, 15, 0⟩ t
       else (cleanupFloatingShapes cache).2) := by
  rw [handleGameStateUpdate]
  dsimp only
  rw [Qc.sub_eq]
  by_cases h1 : ((cleanupFloatingShapes cache).1.any fun e =>
      e.2.isActive && !e.2.isLocked) = true
  · simp [h1]
  · rw [Bool.not_eq_true] at h1
    by_cases h2 : gs.currentShapeId = none
    · by_cases h3 : (1000 : ℚ) < t - gs.lastSpawnTime
      · by_cases h4 : players = [] ∨ players.head? = some pid
        · simp [h1, h2, h3, h4]
        · simp [h1, h2, h3, h4]
      · simp [h1, h2, h3]
    · simp [h1, h2]

end NetworkManager

/-- C1: the spawn guard.  On a game-state notification the client first
sweeps floating shapes; it then commits a spawn — writing the sentinel
`"spawning"` into `gameState.currentShapeId` before creating the shape
record — exactly when: no cached shape (after the sweep) is
active-and-unlocked, `currentShapeId` is `null`, more than 1000 ms have
passed since `lastSpawnTime`, and the local client is first in the cached
player list (a list that excludes the local player itself, so the check
degenerates to that list being empty).  The write list is the sweep's
deletions, then the sentinel update, then the shape record, then the
game-state update — so the sentinel precedes the record. -/
theorem C1_spawn_guard (M : AngleModel) (pid : String) (gs : GameState)
    (cache : List (String × ShapeState M.A)) (players : List String) (t : ℚ)
    (sid sty : String) (sc : ℤ) (sx : ℚ) :
    ((∃ i ty c pos lk ac lu cb, Write.setShapeRec i ty c pos lk ac lu cb ∈
        (NetworkManager.handleGameStateUpdate M pid (some gs) cache players t
          sid sty sc sx).2) ↔
      (((NetworkManager.cleanupFloatingShapes cache).1.any fun e =>
          e.2.isActive && !e.2.isLocked) = false ∧
        gs.currentShapeId = none ∧ 1000 < t - gs.lastSpawnTime ∧
        (players = [] ∨ players.head? = some pid))) ∧
    ((((NetworkManager.cleanupFloatingShapes cache).1.any fun e =>
          e.2.isActive && !e.2.isLocked) = false ∧
        gs.currentShapeId = none ∧ 1000 < t - gs.lastSpawnTime ∧
        (players = [] ∨ players.head? = some pid)) →
      (NetworkManager.handleGameStateUpdate M pid (some gs) cache players t
          sid sty sc sx).2 =
        (NetworkManager.cleanupFloatingShapes cache).2 ++
        [Write.updGameState none (some (some "spawning")) (some t)] ++
        [Write.setShapeRec sid sty sc ⟨sx, 15, 0⟩ false true t pid,
         Write.updGameState (some true) (some (some sid)) (some t)]) ∧
    (∀ w ∈ (NetworkManager.cleanupFloatingShapes cache).2,
      ∃ i, w = Write.delShape i) := by
  rw [NetworkManager.handleGameStateUpdate_eq]
  refine ⟨?_, ?_, NetworkManager.cleanup_writes_delShape cache⟩
  · constructor
    · rintro ⟨i, ty, c, pos, lk, ac, lu, cb, hmem⟩
      by_cases hcond : ((NetworkManager.cleanupFloatingShapes cache).1.any
          fun e => e.2.isActive && !e.2.isLocked) = false ∧
          gs.currentShapeId = none ∧ 1000 < t - gs.lastSpawnTime ∧
          (players = [] ∨ players.head? = some pid)
      · exact hcond
      · exfalso
        rw [if_neg hcond] at hmem
        obtain ⟨j, hj⟩ := NetworkManager.cleanup_writes_delShape cache _ hmem
        exact Write.noConfusion hj
    · intro hcond
      refine ⟨sid, sty, sc, ⟨sx, 15, 0⟩, false, true, t, pid, ?_⟩
      rw [if_pos hcond]
      simp [NetworkManager.addShape]
  · intro hcond
    rw [if_pos hcond]
    rfl

/-- Witness for C1: with an empty cache, a `null` `currentShapeId`, an
expired cooldown and no other cached players, the handler commits a spawn
(the shape-record write is present). -/
theorem C1_witness :
    ∃ i ty c pos lk ac lu cb, Write.setShapeRec i ty c pos lk ac lu cb ∈
      (NetworkManager.handleGameStateUpdate anglesQPi "p1"
        (some { isActive := true, currentShapeId := none, lastSpawnTime := 0
                createdBy := "p1" })
        ([] : List (String × ShapeState anglesQPi.A)) [] 2000 "shp" "I" 255
        0).2 :=
  (C1_spawn_guard anglesQPi "p1"
    { isActive := true, currentShapeId := none, lastSpawnTime := 0
      createdBy := "p1" } [] [] 2000 "shp" "I" 255 0).1.mpr
    (by norm_num [NetworkManager.cleanupFloatingShapes])

theorem eraseIdx_append_cons {α : Type _} (pre : List α) (x : α)
    (rest : List α) : (pre ++ x :: rest).eraseIdx pre.length = pre ++ rest := by
  induction pre with
  | nil => rfl
  | cons a t ih => simp [List.eraseIdx, ih]

theorem rowIdxs_eq_nil (y : ℤ) : ∀ (bs : List Block) (i : ℕ),
    NetworkManager.rowIdxs y bs i = [] ↔
      ∀ b ∈ bs, ¬(Qc.roundQ b.pos.y = y) := by
  intro bs
  induction bs with
  | nil => intro i; simp [NetworkManager.rowIdxs]
  | cons b t ih =>
    intro i
    rw [NetworkManager.rowIdxs]
    by_cases hb : Qc.roundQ b.pos.y = y
    · rw [if_pos hb]
      refine iff_of_false (List.cons_ne_nil _ _) ?_
      intro hAll
      exact (hAll b (List.mem_cons_self _ _)) hb
    · rw [if_neg hb, ih (i + 1)]
      constructor
      · intro h b' hb'
        rcases List.mem_cons.mp hb' with h' | h'
        · rw [h']; exact hb
        · exact h b' h'
      · intro h b' hb'
        exact h b' (List.mem_cons_of_mem _ hb')

theorem spliceDesc_rowIdxs (y : ℤ) :
    ∀ (bs pre : List Block),
      NetworkManager.spliceDesc (pre ++ bs)
        (NetworkManager.rowIdxs y bs pre.length).reverse =
      pre ++ bs.filter (fun b => !decide (Qc.roundQ b.pos.y = y)) := by
  intro bs
  induction bs with
  | nil => intro pre; simp [NetworkManager.rowIdxs, NetworkManager.spliceDesc]
  | cons b t ih =>
    intro pre
    rw [NetworkManager.rowIdxs]
    have h2 : pre ++ b :: t = (pre ++ [b]) ++ t := by simp
    have hih := ih (pre ++ [b])
    have h1 : (pre ++ [b]).length = pre.length + 1 := by simp
    rw [h1] at hih
    by_cases hb : Qc.roundQ b.pos.y = y
    · rw [if_pos hb, List.reverse_cons, NetworkManager.spliceDesc,
        List.foldl_append]
      rw [NetworkManager.spliceDesc] at hih
      rw [h2, hih, List.foldl_cons, List.foldl_nil, List.append_assoc,
        List.singleton_append, eraseIdx_append_cons]
      have hq : (!decide (Qc.roundQ b.pos.y = y)) = false := by
        rw [hb]; simp
      rw [List.filter_cons, hq]
      rfl
    · rw [if_neg hb, h2, hih]
      have hq : (!decide (Qc.roundQ b.pos.y = y)) = true := by
        rw [Bool.not_eq_true', decide_eq_false_iff_not]; exact hb
      rw [List.filter_cons, hq]
      simp

theorem rowEntry_eq (M : AngleModel) (y : ℤ) (s : ShapeState M.A)
    (hs : Shape.blocksInSync M s = true) :
    Shape.updateBlockPositions M
      { s with blocks := NetworkManager.spliceDesc s.blocks (NetworkManager.rowIdxs y s.blocks 0).reverse } =
    { s with blocks :=
        s.blocks.filter fun b => !decide (Qc.roundQ b.pos.y = y) } := by
  have hsp := spliceDesc_rowIdxs y s.blocks []
  rw [List.nil_append, List.length_nil] at hsp
  rw [hsp]
  apply Shape.ubp_of_sync
  rw [Shape.blocksInSync, List.all_eq_true]
  intro b hb
  have hbm : b ∈ s.blocks := List.mem_of_mem_filter hb
  rw [Shape.blocksInSync, List.all_eq_true] at hs
  exact hs b hbm

theorem rowFold (M : AngleModel) (y : ℤ) :
    ∀ (cache : List (String × ShapeState M.A))
      (acc : List (String × ShapeState M.A) × List String),
      (∀ e ∈ cache, Shape.blocksInSync M e.2 = true) →
      cache.foldl
        (fun acc e =>
          if e.2.isLocked then
            if NetworkManager.rowIdxs y e.2.blocks 0 ≠ [] then
              (acc.1 ++ [(e.1, Shape.updateBlockPositions M
                  { e.2 with blocks := NetworkManager.spliceDesc e.2.blocks (NetworkManager.rowIdxs y e.2.blocks 0).reverse })],
               acc.2 ++ [e.1])
            else (acc.1 ++ [e], acc.2)
          else (acc.1 ++ [e], acc.2)) acc =
      (acc.1 ++ cache.map (fun e => (e.1,
          if e.2.isLocked then
            { e.2 with blocks :=
                e.2.blocks.filter fun b => !decide (Qc.roundQ b.pos.y = y) }
          else e.2)),
       acc.2 ++ (cache.filter fun e =>
          e.2.isLocked && e.2.blocks.any fun b =>
            decide (Qc.roundQ b.pos.y = y)).map Prod.fst) := by
  intro cache
  induction cache with
  | nil => intro acc _; simp
  | cons e t ih =>
    intro acc hsync
    rw [List.foldl_cons, ih _ (fun x hx => hsync x (List.mem_cons_of_mem _ hx))]
    by_cases hl : e.2.isLocked = true
    · by_cases hi : NetworkManager.rowIdxs y e.2.blocks 0 = []
      · have hall : ∀ b ∈ e.2.blocks, ¬(Qc.roundQ b.pos.y = y) :=
          (rowIdxs_eq_nil y e.2.blocks 0).mp hi
        have hfil : e.2.blocks.filter
            (fun b => !decide (Qc.roundQ b.pos.y = y)) = e.2.blocks :=
          List.filter_eq_self.mpr (fun b hb => by
            rw [Bool.not_eq_true', decide_eq_false_iff_not]
            exact hall b hb)
        have hany : (e.2.blocks.any fun b =>
            decide (Qc.roundQ b.pos.y = y)) = false := by
          rw [List.any_eq_false]
          intro b hb hbad
          exact hall b hb (of_decide_eq_true hbad)
        have hm : (e.2.isLocked && (e.2.blocks.any fun b =>
            decide (Qc.roundQ b.pos.y = y))) = false := by
          rw [hl, Bool.true_and]
          exact hany
        dsimp only
        rw [if_pos hl, if_neg (not_not_intro hi), List.map_cons,
          List.filter_cons]
        dsimp only
        rw [hm, if_neg Bool.false_ne_true, if_pos hl, hfil]
        simp [List.append_assoc]
      · have hmem : ∃ b ∈ e.2.blocks, Qc.roundQ b.pos.y = y := by
          by_contra hc
          push_neg at hc
          exact hi ((rowIdxs_eq_nil y e.2.blocks 0).mpr hc)
        have hany : (e.2.blocks.any fun b =>
            decide (Qc.roundQ b.pos.y = y)) = true := by
          rw [List.any_eq_true]
          obtain ⟨b, hb, hby⟩ := hmem
          exact ⟨b, hb, decide_eq_true hby⟩
        have hm : (e.2.isLocked && (e.2.blocks.any fun b =>
            decide (Qc.roundQ b.pos.y = y))) = true := by
          rw [hl, Bool.true_and]
          exact hany
        have hentry := rowEntry_eq M y e.2 (hsync e (List.mem_cons_self e t))
        dsimp only
        rw [if_pos hl, if_pos hi, List.map_cons, List.filter_cons]
        dsimp only
        rw [hm, if_pos rfl, if_pos hl, hentry, List.map_cons]
        simp [List.append_assoc]
    · have hl' : e.2.isLocked = false := by rwa [Bool.not_eq_true] at hl
      have hnl : ¬(e.2.isLocked = true) := by
        rw [hl']
        exact Bool.false_ne_true
      have hm : (e.2.isLocked && (e.2.blocks.any fun b =>
          decide (Qc.roundQ b.pos.y = y))) = false := by
        rw [hl', Bool.false_and]
      dsimp only
      rw [if_neg hnl, List.map_cons, List.filter_cons]
      dsimp only
      rw [hm, if_neg Bool.false_ne_true, if_neg hnl]
      simp [List.append_assoc]

theorem aget_of_mem_nodup {β : Type _} :
    ∀ (l : List (String × β)) (k : String) (v : β),
      (l.map Prod.fst).Nodup → (k, v) ∈ l → aget k l = some v := by
  intro l
  induction l with
  | nil => intro k v _ hm; exact absurd hm (List.not_mem_nil _)
  | cons e t ih =>
    intro k v hnd hm
    rw [List.map_cons, List.nodup_cons] at hnd
    rw [List.mem_cons] at hm
    rw [aget]
    rcases hm with hm | hm
    · rw [← hm]
      simp
    · have hne : e.1 ≠ k := by
        intro hk
        exact hnd.1 (hk ▸ List.mem_map.mpr ⟨(k, v), hm, rfl⟩)
      rw [if_neg hne]
      exact ih k v hnd.2 hm

/-- C7: row completion.  Under the block-position/offset synchrony every
`Shape` method maintains, and distinct shape ids, `handleRowCompletion(y)`
removes from each locked shape exactly the blocks whose rounded vertical
position equals `y` (every other block, and every unlocked shape, is left
untouched, positions unchanged); the emitted writes are the fixed
10-point award to the local player's score (the only score write),
followed by republications of the truncated block lists of the modified
shapes, followed by the row-completion stamp. -/
theorem C7_row_completion (M : AngleModel) (pid : String) (y : ℤ) (now : ℚ)
    (cache : List (String × ShapeState M.A))
    (hsync : ∀ e ∈ cache, Shape.blocksInSync M e.2 = true)
    (hnd : (cache.map Prod.fst).Nodup) :
    ((NetworkManager.handleRowCompletion M pid y now cache).1 =
      cache.map fun e => (e.1,
        if e.2.isLocked then
          { e.2 with blocks :=
              e.2.blocks.filter fun b => !decide (Qc.roundQ b.pos.y = y) }
        else e.2)) ∧
    (∃ ws, (NetworkManager.handleRowCompletion M pid y now cache).2 =
        Write.addPoints pid 10 :: ws ++ [Write.setRowCompletion y now] ∧
      (∀ w ∈ ws, ∃ i bl, w = Write.updShapeBlocks i bl now) ∧
      ∀ e ∈ cache, e.2.isLocked = true →
        (∃ b ∈ e.2.blocks, Qc.roundQ b.pos.y = y) →
        Write.updShapeBlocks e.1
          ((e.2.blocks.filter fun b => !decide (Qc.roundQ b.pos.y = y)).map
            (·.pos)) now ∈ ws) := by
  have hfold := rowFold M y cache ([], []) hsync
  rw [NetworkManager.handleRowCompletion]
  dsimp only
  rw [hfold]
  dsimp only
  refine ⟨rfl, ?_⟩
  refine ⟨_, rfl, ?_, ?_⟩
  · intro w hw
    rw [List.append_eq, List.nil_append, List.mem_filterMap] at hw
    obtain ⟨id, _, hF⟩ := hw
    rw [Option.map_eq_some'] at hF
    obtain ⟨st, _, heq⟩ := hF
    exact ⟨id, st.blocks.map (·.pos), heq.symm⟩
  · intro e he hlk hrow
    have hme : (e.2.isLocked && (e.2.blocks.any fun b =>
        decide (Qc.roundQ b.pos.y = y))) = true := by
      rw [hlk, Bool.true_and, List.any_eq_true]
      obtain ⟨b, hb, hby⟩ := hrow
      exact ⟨b, hb, decide_eq_true hby⟩
    have hef : e ∈ cache.filter (fun e => e.2.isLocked &&
        (e.2.blocks.any fun b => decide (Qc.roundQ b.pos.y = y))) :=
      List.mem_filter.mpr ⟨he, hme⟩
    have hid : e.1 ∈ (cache.filter (fun e => e.2.isLocked &&
        (e.2.blocks.any fun b => decide (Qc.roundQ b.pos.y = y)))).map
          Prod.fst :=
      List.mem_map.mpr ⟨e, hef, rfl⟩
    have hkeys : ((cache.map (fun e => (e.1,
        if e.2.isLocked then
          { e.2 with blocks :=
              e.2.blocks.filter fun b => !decide (Qc.roundQ b.pos.y = y) }
        else e.2))).map Prod.fst) = cache.map Prod.fst := by
      rw [List.map_map]
      rfl
    have haget : aget e.1 (cache.map (fun e => (e.1,
        if e.2.isLocked then
          { e.2 with blocks :=
              e.2.blocks.filter fun b => !decide (Qc.roundQ b.pos.y = y) }
        else e.2))) = some (if e.2.isLocked then
          { e.2 with blocks :=
              e.2.blocks.filter fun b => !decide (Qc.roundQ b.pos.y = y) }
        else e.2) := by
      apply aget_of_mem_nodup
      · rw [hkeys]
        exact hnd
      · exact List.mem_map.mpr ⟨e, he, rfl⟩
    dsimp only at haget
    refine List.mem_filterMap.mpr ⟨e.1, hid, ?_⟩
    rw [List.nil_append, haget, Option.map_some']
    rw [if_pos hlk]

/-- Witness for C7: a single locked unit shape whose block sits at row 1
(its `y` is 0.5, which rounds to 1) loses that block, and the writes are
the 10-point award, the truncated (empty) block list, and the stamp. -/
theorem C7_witness :
    ((NetworkManager.handleRowCompletion anglesQPi "p1" 1 7000
        [("s1", lockedUnit)]).1 =
      [("s1", lockedUnit)].map fun e => (e.1,
        if e.2.isLocked then
          { e.2 with blocks :=
              e.2.blocks.filter fun b => !decide (Qc.roundQ b.pos.y = 1) }
        else e.2)) ∧
    (∃ ws, (NetworkManager.handleRowCompletion anglesQPi "p1" 1 7000
        [("s1", lockedUnit)]).2 =
        Write.addPoints "p1" 10 :: ws ++ [Write.setRowCompletion 1 7000] ∧
      (∀ w ∈ ws, ∃ i bl, w = Write.updShapeBlocks i bl 7000) ∧
      ∀ e ∈ [("s1", lockedUnit)], e.2.isLocked = true →
        (∃ b ∈ e.2.blocks, Qc.roundQ b.pos.y = 1) →
        Write.updShapeBlocks e.1
          ((e.2.blocks.filter fun b => !decide (Qc.roundQ b.pos.y = 1)).map
            (·.pos)) 7000 ∈ ws) :=
  C7_row_completion anglesQPi "p1" 1 7000 [("s1", lockedUnit)]
    (by decide) (by decide)

theorem findHit_none {A : Type} :
    ∀ (cache : List (String × ShapeState A)),
      (∀ e ∈ cache, (!e.2.isLocked && e.2.isActive) = false) →
      ∀ p, NetworkManager.findHit p cache = none := by
  intro cache
  induction cache with
  | nil => intro _ p; rfl
  | cons e t ih =>
    intro hq p
    rw [NetworkManager.findHit, hq e (List.mem_cons_self e t),
      Bool.false_and, if_neg Bool.false_ne_true]
    exact ih (fun x hx => hq x (List.mem_cons_of_mem _ hx)) p

theorem updateBullets_age_aux (M : AngleModel) (now : ℚ) :
    ∀ (l : List ((String × ℚ) × Bullet)) (r0 : NetworkManager.BulletsResult M.A),
      (∀ kb ∈ r0.bullets, ¬(5000 < Qc.sub now kb.1.2)) →
      ∀ kb ∈ (l.foldl (fun r kb =>
          let b := Bullet.update kb.2
          match NetworkManager.findHit b.position r.cache with
          | some id =>
            let cache' :=
              match aget id r.cache with
              | some s =>
                aset id (((Shape.startRotation M s true).map Prod.snd).getD s)
                  r.cache
              | none => r.cache
            { r with cache := cache', disposed := r.disposed ++ [kb.1] }
          | none =>
            if decide (5000 < Qc.sub now kb.1.2) then
              { r with disposed := r.disposed ++ [kb.1] }
            else
              { r with bullets := r.bullets ++ [(kb.1, b)] }) r0).bullets,
        ¬(5000 < Qc.sub now kb.1.2) := by
  intro l
  induction l with
  | nil => intro r0 h; exact h
  | cons kb t ih =>
    intro r0 h
    rw [List.foldl_cons]
    apply ih
    dsimp only
    split
    · exact h
    · split
      · exact h
      · next hcond =>
        intro x hx
        rcases List.mem_append.mp hx with hx | hx
        · exact h x hx
        · rw [List.mem_singleton] at hx
          subst hx
          intro hlt
          exact absurd (decide_eq_true hlt) hcond

theorem updateBullets_nohit_aux (M : AngleModel) (now : ℚ)
    (cache0 : List (String × ShapeState M.A))
    (hq : ∀ e ∈ cache0, (!e.2.isLocked && e.2.isActive) = false) :
    ∀ (l : List ((String × ℚ) × Bullet))
      (r0 : NetworkManager.BulletsResult M.A),
      r0.cache = cache0 →
      l.foldl (fun r kb =>
          let b := Bullet.update kb.2
          match NetworkManager.findHit b.position r.cache with
          | some id =>
            let cache' :=
              match aget id r.cache with
              | some s =>
                aset id (((Shape.startRotation M s true).map Prod.snd).getD s)
                  r.cache
              | none => r.cache
            { r with cache := cache', disposed := r.disposed ++ [kb.1] }
          | none =>
            if decide (5000 < Qc.sub now kb.1.2) then
              { r with disposed := r.disposed ++ [kb.1] }
            else
              { r with bullets := r.bullets ++ [(kb.1, b)] }) r0 =
        { bullets := r0.bullets ++ (l.filter fun kb =>
              !decide (5000 < Qc.sub now kb.1.2)).map
                (fun kb => (kb.1, Bullet.update kb.2)),
          cache := cache0,
          disposed := r0.disposed ++ (l.filter fun kb =>
              decide (5000 < Qc.sub now kb.1.2)).map Prod.fst } := by
  intro l
  induction l with
  | nil =>
    intro r0 hc
    obtain ⟨bs, ch, ds⟩ := r0
    dsimp only at hc
    subst hc
    simp
  | cons kb t ih =>
    intro r0 hc
    rw [List.foldl_cons]
    have hfh : NetworkManager.findHit (Bullet.update kb.2).position r0.cache =
        none := by
      rw [hc]
      exact findHit_none cache0 hq _
    dsimp only
    rw [hfh]
    dsimp only
    by_cases hold : (5000 : ℚ) < Qc.sub now kb.1.2
    · have hd : decide ((5000 : ℚ) < Qc.sub now kb.1.2) = true :=
        decide_eq_true hold
      rw [if_pos hd]
      refine Eq.trans
        (ih { r0 with disposed := r0.disposed ++ [kb.1] } hc) ?_
      rw [List.filter_cons, List.filter_cons]
      dsimp only
      rw [hd]
      simp [List.append_assoc]
    · have hd : decide ((5000 : ℚ) < Qc.sub now kb.1.2) = false :=
        decide_eq_false hold
      rw [if_neg (by rw [hd]; exact Bool.false_ne_true)]
      refine Eq.trans
        (ih { r0 with bullets := r0.bullets ++ [(kb.1, Bullet.update kb.2)] }
          hc) ?_
      rw [List.filter_cons, List.filter_cons]
      dsimp only
      rw [hd]
      simp [List.append_assoc]

/-- C9 (amended): bullet removal is governed by collision and by a 5000 ms
wall-clock age limit, not by the advertised 8000 ms lifetime.  Every bullet
surviving `updateBullets` has spawn-timestamp age at most 5000 ms; and when
no cached shape is active-and-unlocked (so no collision is possible), a
bullet is removed exactly when its age exceeds 5000 ms — the `maxLifetime`
of 8000 ms and the near-zero-velocity-at-floor condition only set the
`isDead` flag, which nothing ever reads, so they neither remove a bullet
nor keep one alive. -/
theorem C9_bullet_removal (M : AngleModel) (now : ℚ)
    (bullets0 : List ((String × ℚ) × Bullet))
    (cache0 : List (String × ShapeState M.A)) :
    (∀ kb ∈ (NetworkManager.updateBullets M now bullets0 cache0).bullets,
      ¬(5000 < Qc.sub now kb.1.2)) ∧
    ((∀ e ∈ cache0, (!e.2.isLocked && e.2.isActive) = false) →
      NetworkManager.updateBullets M now bullets0 cache0 =
        { bullets := (bullets0.filter fun kb =>
              !decide (5000 < Qc.sub now kb.1.2)).map
                (fun kb => (kb.1, Bullet.update kb.2)),
          cache := cache0,
          disposed := (bullets0.filter fun kb =>
              decide (5000 < Qc.sub now kb.1.2)).map Prod.fst }) := by
  constructor
  · rw [NetworkManager.updateBullets]
    exact updateBullets_age_aux M now bullets0 _
      (fun kb h => absurd h (List.not_mem_nil kb))
  · intro hq
    rw [NetworkManager.updateBullets]
    exact updateBullets_nohit_aux M now cache0 hq bullets0 _ rfl

/-- Counterexample for C9 as stated: a bullet spawned 6000 ms ago (but with
internal `lifetime` only reaching 16 ms, far below the 8000 ms
`maxLifetime`, its `isDead` flag still false, high above the floor, with no
shape to collide with) is nevertheless removed and disposed by
`updateBullets` — removal is the wall-clock 5000 ms rule, not the
spec's 8000 ms lifetime, collision, or floor-rest conditions. -/
theorem C9_counterexample :
    (NetworkManager.updateBullets anglesQPi 6000 [(("p1", 0), bulletA)]
        ([] : List (String × ShapeState anglesQPi.A))).bullets = [] ∧
    (NetworkManager.updateBullets anglesQPi 6000 [(("p1", 0), bulletA)]
        ([] : List (String × ShapeState anglesQPi.A))).disposed =
      [("p1", 0)] ∧
    (Bullet.update bulletA).isDead = false ∧
    (Bullet.update bulletA).lifetime = 16 := by
  decide

/-- Witness for C9: with one 6000 ms-old and one 500 ms-old bullet and a
locked (hence unhittable) cached shape, `updateBullets` keeps exactly the
young bullet (advanced one step) and disposes exactly the old key. -/
theorem C9_witness :
    NetworkManager.updateBullets anglesQPi 6000
      [(("p1", 0), bulletA), (("p2", 5500), bulletB)]
      [("s1", lockedUnit)] =
    { bullets := ([(("p1", 0), bulletA), (("p2", 5500), bulletB)].filter
          fun kb => !decide (5000 < Qc.sub 6000 kb.1.2)).map
            (fun kb => (kb.1, Bullet.update kb.2)),
      cache := [("s1", lockedUnit)],
      disposed := ([(("p1", 0), bulletA), (("p2", 5500), bulletB)].filter
          fun kb => decide (5000 < Qc.sub 6000 kb.1.2)).map Prod.fst } :=
  (C9_bullet_removal anglesQPi 6000
    [(("p1", 0), bulletA), (("p2", 5500), bulletB)]
    [("s1", lockedUnit)]).2 (by decide)

theorem map_fst_aset {β : Type _} (id : String) (v : β) :
    ∀ l : List (String × β), (aset id v l).map Prod.fst = l.map Prod.fst := by
  intro l
  induction l with
  | nil => rfl
  | cons e t ih =>
    rw [aset, List.map_cons, List.map_cons, List.map_cons]
    by_cases h : e.1 = id
    · rw [if_pos h]
      rw [← ih, aset]
      simp [h]
    · rw [if_neg h]
      rw [← ih, aset]

theorem aget_isSome_aset {β : Type _} (id k : String) (v : β)
    (l : List (String × β)) :
    (aget k (aset id v l)).isSome = (aget k l).isSome := by
  by_cases h : k = id
  · subst h
    rw [aget_aset_self]
    cases aget k l <;> rfl
  · rw [aget_aset_ne id k v l h]

theorem aget_mem {β : Type _} :
    ∀ (l : List (String × β)) (k : String) (v : β),
      aget k l = some v → (k, v) ∈ l := by
  intro l
  induction l with
  | nil => intro k v h; exact absurd h (by rw [aget]; exact Option.noConfusion)
  | cons e t ih =>
    intro k v h
    rw [aget] at h
    by_cases he : e.1 = k
    · rw [if_pos he] at h
      rw [List.mem_cons]
      left
      rw [← he, ← Option.some_inj.mp h]
    · rw [if_neg he] at h
      exact List.mem_cons_of_mem _ (ih k v h)

theorem aget_isSome_of_mem {β : Type _} :
    ∀ (l : List (String × β)) (k : String) (v : β),
      (k, v) ∈ l → (aget k l).isSome = true := by
  intro l
  induction l with
  | nil => intro k v h; exact absurd h (List.not_mem_nil _)
  | cons e t ih =>
    intro k v h
    rw [aget]
    by_cases he : e.1 = k
    · rw [if_pos he]
      rfl
    · rw [if_neg he]
      rcases List.mem_cons.mp h with h | h
      · exact absurd (congrArg Prod.fst h.symm) he
      · exact ih k v h

namespace NetworkManager

theorem updateShapesStep_disposed (M : AngleModel) (now : ℚ)
    (r : ShapesResult M.A) (e : String × Option ShapeData) :
    (updateShapesStep M now r e).disposed = r.disposed := by
  simp only [updateShapesStep]
  split
  · rfl
  · split
    · rfl
    · split
      · rfl
      · rfl

theorem updateShapes_fold_disposed (M : AngleModel) (now : ℚ) :
    ∀ (snap : List (String × Option ShapeData)) (r0 : ShapesResult M.A),
      (List.foldl (updateShapesStep M now) r0 snap).disposed = r0.disposed := by
  intro snap
  induction snap with
  | nil => intro r0; rfl
  | cons e t ih =>
    intro r0
    rw [List.foldl_cons, ih, updateShapesStep_disposed]

theorem updateShapesStep_preserves_aget (M : AngleModel) (now : ℚ)
    (r : ShapesResult M.A) (e : String × Option ShapeData) (k : String)
    (h : (aget k r.cache).isSome = true) :
    (aget k (updateShapesStep M now r e).cache).isSome = true := by
  simp only [updateShapesStep]
  split
  · exact h
  · split
    · rw [aget_isSome_aset]
      exact h
    · split
      · exact h
      · rw [aget_isSome_aset, aget_append]
        cases hc : aget k r.cache with
        | some s => rfl
        | none => rw [hc] at h; exact Bool.noConfusion h

theorem updateShapes_fold_preserves_aget (M : AngleModel) (now : ℚ) :
    ∀ (snap : List (String × Option ShapeData)) (r0 : ShapesResult M.A)
      (k : String), (aget k r0.cache).isSome = true →
      (aget k (List.foldl (updateShapesStep M now) r0 snap).cache).isSome =
        true := by
  intro snap
  induction snap with
  | nil => intro r0 k h; exact h
  | cons e t ih =>
    intro r0 k h
    rw [List.foldl_cons]
    exact ih _ k (updateShapesStep_preserves_aget M now r0 e k h)

theorem updateShapesStep_keys (M : AngleModel) (now : ℚ)
    (r : ShapesResult M.A) (e : String × Option ShapeData) :
    ∀ k ∈ (updateShapesStep M now r e).cache.map Prod.fst,
      k ∈ r.cache.map Prod.fst ∨ k = e.1 := by
  intro k hk
  simp only [updateShapesStep] at hk
  split at hk
  · exact Or.inl hk
  · split at hk
    · rw [map_fst_aset] at hk
      exact Or.inl hk
    · split at hk
      · exact Or.inl hk
      · rw [map_fst_aset, List.map_append, List.map_cons, List.map_nil] at hk
        rcases List.mem_append.mp hk with hk | hk
        · exact Or.inl hk
        · exact Or.inr (List.mem_singleton.mp hk)

theorem updateShapes_fold_keys (M : AngleModel) (now : ℚ)
    (P : String → Prop) :
    ∀ (snap : List (String × Option ShapeData)) (r0 : ShapesResult M.A),
      (∀ k ∈ r0.cache.map Prod.fst, P k) → (∀ e ∈ snap, P e.1) →
      ∀ k ∈ (List.foldl (updateShapesStep M now) r0 snap).cache.map Prod.fst,
        P k := by
  intro snap
  induction snap with
  | nil => intro r0 h0 _ k hk; exact h0 k hk
  | cons e t ih =>
    intro r0 h0 hs
    rw [List.foldl_cons]
    apply ih
    · intro k hk
      rcases updateShapesStep_keys M now r0 e k hk with h | h
      · exact h0 k h
      · rw [h]
        exact hs e (List.mem_cons_self e t)
    · intro x hx
      exact hs x (List.mem_cons_of_mem _ hx)

theorem updateShapes_fold_created (M : AngleModel) (now : ℚ) :
    ∀ (snap : List (String × Option ShapeData)) (r0 : ShapesResult M.A),
      (∀ e ∈ snap, ∀ d, e.2 = some d → createFromData M d ≠ none →
        (aget e.1 r0.cache).isSome = true) →
      (List.foldl (updateShapesStep M now) r0 snap).created = r0.created := by
  intro snap
  induction snap with
  | nil => intro r0 _; rfl
  | cons e t ih =>
    intro r0 h
    rw [List.foldl_cons]
    have hstep : (updateShapesStep M now r0 e).created = r0.created := by
      simp only [updateShapesStep]
      cases he : e.2 with
      | none => rfl
      | some d =>
        cases hc : aget e.1 r0.cache with
        | some s => rfl
        | none =>
          cases hcr : createFromData M d with
          | none =>
            dsimp only
            rw [hcr]
          | some sNew =>
            have := h e (List.mem_cons_self e t) d he
              (by rw [hcr]; exact fun hx => Option.noConfusion hx)
            rw [hc] at this
            exact Bool.noConfusion this
    rw [ih _ ?_, hstep]
    intro x hx d hd hcr
    exact updateShapesStep_preserves_aget M now r0 e x.1
      (h x (List.mem_cons_of_mem _ hx) d hd hcr)

theorem updateShapes_fold_mem_after (M : AngleModel) (now : ℚ) :
    ∀ (snap : List (String × Option ShapeData)) (r0 : ShapesResult M.A)
      (e : String × Option ShapeData), e ∈ snap →
      ∀ d, e.2 = some d → createFromData M d ≠ none →
      (aget e.1
        (List.foldl (updateShapesStep M now) r0 snap).cache).isSome = true := by
  intro snap
  induction snap with
  | nil => intro r0 e he; exact absurd he (List.not_mem_nil _)
  | cons x t ih =>
    intro r0 e he d hd hcr
    rw [List.foldl_cons]
    rcases List.mem_cons.mp he with he | he
    · subst he
      apply updateShapes_fold_preserves_aget
      simp only [updateShapesStep]
      rw [hd]
      cases hc : aget e.1 r0.cache with
      | some s =>
        dsimp only
        rw [aget_isSome_aset]
        rw [hc]
        rfl
      | none =>
        dsimp only
        cases hcf : createFromData M d with
        | none => exact absurd hcf hcr
        | some sNew =>
          dsimp only
          rw [aget_isSome_aset, aget_append, hc]
          rw [aget, if_pos rfl]
          rfl
    · exact ih _ e he d hd hcr

end NetworkManager

namespace NetworkManager

theorem updateShapes_eq_foldl (M : AngleModel) (now : ℚ)
    (cache : List (String × ShapeState M.A))
    (snap : List (String × Option ShapeData)) :
    updateShapes M now cache snap =
      List.foldl (updateShapesStep M now)
        { cache := cache.filter fun e => decide (e.1 ∈ snap.map Prod.fst),
          writes := [], created := 0,
          disposed := cache.length -
            (cache.filter fun e =>
              decide (e.1 ∈ snap.map Prod.fst)).length }
        snap := rfl

theorem updatePlayers_eq_foldl (now : ℚ) (selfId : String)
    (cache : List (String × PlayerObj)) (snap : List (String × PlayerData)) :
    updatePlayers now selfId cache snap =
      List.foldl (fun r e =>
        if e.1 = selfId then r
        else
          match aget e.1 r.cache with
          | some pl =>
            { r with cache := aset e.1 (applyPlayerAttrs pl e.2) r.cache }
          | none =>
            let plNew : PlayerObj :=
              { nickname := if truthyStr e.2.nickname then
                    e.2.nickname.getD "Unknown"
                  else "Unknown"
                hasFigure := true
                colors := e.2.colors }
            { r with cache := aset e.1 (applyPlayerAttrs plNew e.2)
                       (r.cache ++ [(e.1, plNew)])
                     created := r.created + 1 })
        (List.foldl (fun (r : PlayersResult) e =>
          match aget e.1 snap with
          | none => { r with disposed := r.disposed + 1 }
          | some d =>
            if !d.online then
              { r with disposed := r.disposed + 1
                       writes := r.writes ++
                         (if decide (5000 < Qc.sub now d.lastSeen) then
                           [Write.delPlayer e.1, Write.delScore e.1]
                         else []) }
            else { r with cache := r.cache ++ [e] })
          { cache := [], writes := [], created := 0, disposed := 0 } cache)
        snap := rfl

theorem players_rm_all_online (now : ℚ) (snap : List (String × PlayerData)) :
    ∀ (l : List (String × PlayerObj)) (acc : PlayersResult),
      (∀ x ∈ l, ∃ d, aget x.1 snap = some d ∧ d.online = true) →
      List.foldl (fun (r : PlayersResult) e =>
          match aget e.1 snap with
          | none => { r with disposed := r.disposed + 1 }
          | some d =>
            if !d.online then
              { r with disposed := r.disposed + 1
                       writes := r.writes ++
                         (if decide (5000 < Qc.sub now d.lastSeen) then
                           [Write.delPlayer e.1, Write.delScore e.1]
                         else []) }
            else { r with cache := r.cache ++ [e] }) acc l =
        { cache := acc.cache ++ l, writes := acc.writes,
          created := acc.created, disposed := acc.disposed } := by
  intro l
  induction l with
  | nil =>
    intro acc _
    obtain ⟨c, w, cr, di⟩ := acc
    simp
  | cons x t ih =>
    intro acc hall
    obtain ⟨d, hd, hon⟩ := hall x (List.mem_cons_self x t)
    rw [List.foldl_cons]
    simp only [hd]
    rw [hon, Bool.not_true, if_neg Bool.false_ne_true]
    refine Eq.trans (ih { acc with cache := acc.cache ++ [x] }
      (fun y hy => hall y (List.mem_cons_of_mem _ hy))) ?_
    simp [List.append_assoc]

theorem players_rm_keys (now : ℚ) (snap : List (String × PlayerData)) :
    ∀ (l : List (String × PlayerObj)) (acc : PlayersResult),
      (∀ k ∈ acc.cache.map Prod.fst, (aget k snap).isSome = true) →
      ∀ k ∈ (List.foldl (fun (r : PlayersResult) e =>
          match aget e.1 snap with
          | none => { r with disposed := r.disposed + 1 }
          | some d =>
            if !d.online then
              { r with disposed := r.disposed + 1
                       writes := r.writes ++
                         (if decide (5000 < Qc.sub now d.lastSeen) then
                           [Write.delPlayer e.1, Write.delScore e.1]
                         else []) }
            else { r with cache := r.cache ++ [e] }) acc l).cache.map Prod.fst,
        (aget k snap).isSome = true := by
  intro l
  induction l with
  | nil => intro acc h; exact h
  | cons x t ih =>
    intro acc h
    rw [List.foldl_cons]
    apply ih
    cases hx : aget x.1 snap with
    | none =>
      simp only [hx]
      exact h
    | some d =>
      simp only [hx]
      by_cases hon : d.online = true
      · rw [hon, Bool.not_true, if_neg Bool.false_ne_true]
        intro k hk
        rw [List.map_append] at hk
        rcases List.mem_append.mp hk with hk | hk
        · exact h k hk
        · rw [List.map_cons, List.map_nil, List.mem_singleton] at hk
          rw [hk, hx]
          rfl
      · have hon' : d.online = false := by rwa [Bool.not_eq_true] at hon
        rw [hon', Bool.not_false, if_pos rfl]
        exact h

theorem players_cr_step_pres (selfId : String) (r : PlayersResult)
    (e : String × PlayerData) (k : String)
    (h : (aget k r.cache).isSome = true) :
    (aget k ((fun (r : PlayersResult) (e : String × PlayerData) =>
        if e.1 = selfId then r
        else
          match aget e.1 r.cache with
          | some pl =>
            { r with cache := aset e.1 (applyPlayerAttrs pl e.2) r.cache }
          | none =>
            let plNew : PlayerObj :=
              { nickname := if truthyStr e.2.nickname then
                    e.2.nickname.getD "Unknown"
                  else "Unknown"
                hasFigure := true
                colors := e.2.colors }
            { r with cache := aset e.1 (applyPlayerAttrs plNew e.2)
                       (r.cache ++ [(e.1, plNew)])
                     created := r.created + 1 }) r e).cache).isSome = true := by
  dsimp only
  by_cases hs : e.1 = selfId
  · rw [if_pos hs]
    exact h
  · rw [if_neg hs]
    cases hc : aget e.1 r.cache with
    | some pl =>
      dsimp only
      rw [aget_isSome_aset]
      exact h
    | none =>
      dsimp only
      rw [aget_isSome_aset, aget_append]
      cases hk : aget k r.cache with
      | some v => rfl
      | none => rw [hk] at h; exact Bool.noConfusion h

theorem players_cr_fold_pres (selfId : String) :
    ∀ (l : List (String × PlayerData)) (r0 : PlayersResult) (k : String),
      (aget k r0.cache).isSome = true →
      (aget k (List.foldl (fun r e =>
          if e.1 = selfId then r
          else
            match aget e.1 r.cache with
            | some pl =>
              { r with cache := aset e.1 (applyPlayerAttrs pl e.2) r.cache }
            | none =>
              let plNew : PlayerObj :=
                { nickname := if truthyStr e.2.nickname then
                      e.2.nickname.getD "Unknown"
                    else "Unknown"
                  hasFigure := true
                  colors := e.2.colors }
              { r with cache := aset e.1 (applyPlayerAttrs plNew e.2)
                         (r.cache ++ [(e.1, plNew)])
                       created := r.created + 1 }) r0 l).cache).isSome =
        true := by
  intro l
  induction l with
  | nil => intro r0 k h; exact h
  | cons x t ih =>
    intro r0 k h
    rw [List.foldl_cons]
    exact ih _ k (players_cr_step_pres selfId r0 x k h)

theorem players_cr_mem_after (selfId : String) :
    ∀ (l : List (String × PlayerData)) (r0 : PlayersResult)
      (e : String × PlayerData), e ∈ l → ¬(e.1 = selfId) →
      (aget e.1 (List.foldl (fun r e =>
          if e.1 = selfId then r
          else
            match aget e.1 r.cache with
            | some pl =>
              { r with cache := aset e.1 (applyPlayerAttrs pl e.2) r.cache }
            | none =>
              let plNew : PlayerObj :=
                { nickname := if truthyStr e.2.nickname then
                      e.2.nickname.getD "Unknown"
                    else "Unknown"
                  hasFigure := true
                  colors := e.2.colors }
              { r with cache := aset e.1 (applyPlayerAttrs plNew e.2)
                         (r.cache ++ [(e.1, plNew)])
                       created := r.created + 1 }) r0 l).cache).isSome =
        true := by
  intro l
  induction l with
  | nil => intro r0 e he; exact absurd he (List.not_mem_nil _)
  | cons x t ih =>
    intro r0 e he hs
    rw [List.foldl_cons]
    rcases List.mem_cons.mp he with he | he
    · subst he
      apply players_cr_fold_pres
      dsimp only
      rw [if_neg hs]
      cases hc : aget e.1 r0.cache with
      | some pl =>
        dsimp only
        rw [aget_isSome_aset, hc]
        rfl
      | none =>
        dsimp only
        rw [aget_isSome_aset, aget_append, hc, aget, if_pos rfl]
        rfl
    · exact ih _ e he hs

theorem players_cr_keys (selfId : String) (P : String → Prop) :
    ∀ (l : List (String × PlayerData)) (r0 : PlayersResult),
      (∀ k ∈ r0.cache.map Prod.fst, P k) → (∀ e ∈ l, P e.1) →
      ∀ k ∈ (List.foldl (fun r e =>
          if e.1 = selfId then r
          else
            match aget e.1 r.cache with
            | some pl =>
              { r with cache := aset e.1 (applyPlayerAttrs pl e.2) r.cache }
            | none =>
              let plNew : PlayerObj :=
                { nickname := if truthyStr e.2.nickname then
                      e.2.nickname.getD "Unknown"
                    else "Unknown"
                  hasFigure := true
                  colors := e.2.colors }
              { r with cache := aset e.1 (applyPlayerAttrs plNew e.2)
                         (r.cache ++ [(e.1, plNew)])
                       created := r.created + 1 }) r0 l).cache.map Prod.fst,
        P k := by
  intro l
  induction l with
  | nil => intro r0 h0 _ k hk; exact h0 k hk
  | cons x t ih =>
    intro r0 h0 hs
    rw [List.foldl_cons]
    apply ih
    · intro k hk
      dsimp only at hk
      by_cases hself : x.1 = selfId
      · rw [if_pos hself] at hk
        exact h0 k hk
      · rw [if_neg hself] at hk
        revert hk
        cases hc : aget x.1 r0.cache with
        | some pl =>
          dsimp only
          rw [map_fst_aset]
          exact h0 k
        | none =>
          dsimp only
          rw [map_fst_aset, List.map_append, List.map_cons, List.map_nil]
          intro hk
          rcases List.mem_append.mp hk with hk | hk
          · exact h0 k hk
          · rw [List.mem_singleton] at hk
            rw [hk]
            exact hs x (List.mem_cons_self x t)
    · intro y hy
      exact hs y (List.mem_cons_of_mem _ hy)

theorem players_cr_fold_counts (selfId : String) :
    ∀ (l : List (String × PlayerData)) (r0 : PlayersResult),
      (∀ e ∈ l, ¬(e.1 = selfId) → (aget e.1 r0.cache).isSome = true) →
      (List.foldl (fun r e =>
          if e.1 = selfId then r
          else
            match aget e.1 r.cache with
            | some pl =>
              { r with cache := aset e.1 (applyPlayerAttrs pl e.2) r.cache }
            | none =>
              let plNew : PlayerObj :=
                { nickname := if truthyStr e.2.nickname then
                      e.2.nickname.getD "Unknown"
                    else "Unknown"
                  hasFigure := true
                  colors := e.2.colors }
              { r with cache := aset e.1 (applyPlayerAttrs plNew e.2)
                         (r.cache ++ [(e.1, plNew)])
                       created := r.created + 1 }) r0 l).created =
          r0.created ∧
      (List.foldl (fun r e =>
          if e.1 = selfId then r
          else
            match aget e.1 r.cache with
            | some pl =>
              { r with cache := aset e.1 (applyPlayerAttrs pl e.2) r.cache }
            | none =>
              let plNew : PlayerObj :=
                { nickname := if truthyStr e.2.nickname then
                      e.2.nickname.getD "Unknown"
                    else "Unknown"
                  hasFigure := true
                  colors := e.2.colors }
              { r with cache := aset e.1 (applyPlayerAttrs plNew e.2)
                         (r.cache ++ [(e.1, plNew)])
                       created := r.created + 1 }) r0 l).disposed =
          r0.disposed := by
  intro l
  induction l with
  | nil => intro r0 _; exact ⟨rfl, rfl⟩
  | cons x t ih =>
    intro r0 h
    rw [List.foldl_cons]
    have hcond : ∀ e ∈ t, ¬(e.1 = selfId) →
        (aget e.1 ((fun r e =>
          if e.1 = selfId then r
          else
            match aget e.1 r.cache with
            | some pl =>
              { r with cache := aset e.1 (applyPlayerAttrs pl e.2) r.cache }
            | none =>
              let plNew : PlayerObj :=
                { nickname := if truthyStr e.2.nickname then
                      e.2.nickname.getD "Unknown"
                    else "Unknown"
                  hasFigure := true
                  colors := e.2.colors }
              { r with cache := aset e.1 (applyPlayerAttrs plNew e.2)
                         (r.cache ++ [(e.1, plNew)])
                       created := r.created + 1 }) r0 x).cache).isSome =
          true := by
      intro e he hs
      exact players_cr_step_pres selfId r0 x e.1
        (h e (List.mem_cons_of_mem _ he) hs)
    obtain ⟨h1, h2⟩ := ih _ hcond
    have hstep : ((fun r e =>
          if e.1 = selfId then r
          else
            match aget e.1 r.cache with
            | some pl =>
              { r with cache := aset e.1 (applyPlayerAttrs pl e.2) r.cache }
            | none =>
              let plNew : PlayerObj :=
                { nickname := if truthyStr e.2.nickname then
                      e.2.nickname.getD "Unknown"
                    else "Unknown"
                  hasFigure := true
                  colors := e.2.colors }
              { r with cache := aset e.1 (applyPlayerAttrs plNew e.2)
                         (r.cache ++ [(e.1, plNew)])
                       created := r.created + 1 }) r0 x).created =
          r0.created ∧
        ((fun r e =>
          if e.1 = selfId then r
          else
            match aget e.1 r.cache with
            | some pl =>
              { r with cache := aset e.1 (applyPlayerAttrs pl e.2) r.cache }
            | none =>
              let plNew : PlayerObj :=
                { nickname := if truthyStr e.2.nickname then
                      e.2.nickname.getD "Unknown"
                    else "Unknown"
                  hasFigure := true
                  colors := e.2.colors }
              { r with cache := aset e.1 (applyPlayerAttrs plNew e.2)
                         (r.cache ++ [(e.1, plNew)])
                       created := r.created + 1 }) r0 x).disposed =
          r0.disposed := by
      dsimp only
      by_cases hself : x.1 = selfId
      · rw [if_pos hself]
        exact ⟨rfl, rfl⟩
      · rw [if_neg hself]
        cases hc : aget x.1 r0.cache with
        | some pl => exact ⟨rfl, rfl⟩
        | none =>
          have := h x (List.mem_cons_self x t) hself
          rw [hc] at this
          exact Bool.noConfusion this
    exact ⟨h1.trans hstep.1, h2.trans hstep.2⟩

end NetworkManager

/-- C8 (amended): shape reconciliation is idempotent — re-applying
`updateShapes` to the same snapshot right after a first application
creates no shape and disposes none — but player reconciliation is not:
it is idempotent only when every snapshot player is flagged online,
because `updatePlayers` recreates a cached-off offline player on every
pass and then disposes it again on the next. -/
theorem C8_reconciliation_idempotence (M : AngleModel) (now now2 : ℚ)
    (cache : List (String × ShapeState M.A))
    (snap : List (String × Option ShapeData))
    (pcache : List (String × PlayerObj)) (selfId : String)
    (psnap : List (String × PlayerData)) :
    ((NetworkManager.updateShapes M now2
        (NetworkManager.updateShapes M now cache snap).cache snap).created =
      0 ∧
     (NetworkManager.updateShapes M now2
        (NetworkManager.updateShapes M now cache snap).cache snap).disposed =
      0) ∧
    ((∀ e ∈ psnap, e.2.online = true) →
      (NetworkManager.updatePlayers now2 selfId
          (NetworkManager.updatePlayers now selfId pcache psnap).cache
          psnap).created = 0 ∧
      (NetworkManager.updatePlayers now2 selfId
          (NetworkManager.updatePlayers now selfId pcache psnap).cache
          psnap).disposed = 0) := by
  constructor
  · -- shapes
    have hkeys1 : ∀ k ∈ (NetworkManager.updateShapes M now cache
        snap).cache.map Prod.fst, k ∈ snap.map Prod.fst := by
      rw [NetworkManager.updateShapes_eq_foldl]
      apply NetworkManager.updateShapes_fold_keys M now
        (fun k => k ∈ snap.map Prod.fst)
      · intro k hk
        rw [List.mem_map] at hk
        obtain ⟨x, hx, rfl⟩ := hk
        exact of_decide_eq_true (List.mem_filter.mp hx).2
      · intro e he
        exact List.mem_map.mpr ⟨e, he, rfl⟩
    have hmem1 : ∀ e ∈ snap, ∀ d, e.2 = some d →
        NetworkManager.createFromData M d ≠ none →
        (aget e.1 (NetworkManager.updateShapes M now cache
          snap).cache).isSome = true := by
      rw [NetworkManager.updateShapes_eq_foldl]
      intro e he d hd hcr
      exact NetworkManager.updateShapes_fold_mem_after M now snap _ e he d
        hd hcr
    have hfil : (NetworkManager.updateShapes M now cache snap).cache.filter
        (fun e => decide (e.1 ∈ snap.map Prod.fst)) =
        (NetworkManager.updateShapes M now cache snap).cache :=
      List.filter_eq_self.mpr (fun x hx =>
        decide_eq_true (hkeys1 x.1 (List.mem_map.mpr ⟨x, hx, rfl⟩)))
    constructor
    · rw [NetworkManager.updateShapes_eq_foldl M now2]
      rw [NetworkManager.updateShapes_fold_created M now2 snap _ ?_]
      intro e he d hd hcr
      rw [aget_filter_key e.1 (fun k => decide (k ∈ snap.map Prod.fst))
        (NetworkManager.updateShapes M now cache snap).cache,
        if_pos (decide_eq_true (List.mem_map.mpr ⟨e, he, rfl⟩))]
      exact hmem1 e he d hd hcr
    · rw [NetworkManager.updateShapes_eq_foldl M now2,
        NetworkManager.updateShapes_fold_disposed]
      rw [show ((NetworkManager.updateShapes M now cache snap).cache.filter
          (fun e => decide (e.1 ∈ snap.map Prod.fst))).length =
          (NetworkManager.updateShapes M now cache snap).cache.length from
        congrArg List.length hfil]
      exact Nat.sub_self _
  · -- players
    intro honline
    have hP1a : ∀ k ∈ (NetworkManager.updatePlayers now selfId pcache
        psnap).cache.map Prod.fst, (aget k psnap).isSome = true := by
      rw [NetworkManager.updatePlayers_eq_foldl]
      apply NetworkManager.players_cr_keys selfId
        (fun k => (aget k psnap).isSome = true)
      · apply NetworkManager.players_rm_keys now psnap
        intro k hk
        exact absurd hk (List.not_mem_nil k)
      · intro e he
        exact aget_isSome_of_mem psnap e.1 e.2 he
    have hP1b : ∀ e ∈ psnap, ¬(e.1 = selfId) →
        (aget e.1 (NetworkManager.updatePlayers now selfId pcache
          psnap).cache).isSome = true := by
      rw [NetworkManager.updatePlayers_eq_foldl]
      intro e he hs
      exact NetworkManager.players_cr_mem_after selfId psnap _ e he hs
    have hall : ∀ x ∈ (NetworkManager.updatePlayers now selfId pcache
        psnap).cache, ∃ d, aget x.1 psnap = some d ∧ d.online = true := by
      intro x hx
      have := hP1a x.1 (List.mem_map.mpr ⟨x, hx, rfl⟩)
      cases hget : aget x.1 psnap with
      | none => rw [hget] at this; exact Bool.noConfusion this
      | some d =>
        exact ⟨d, rfl, honline (x.1, d) (aget_mem psnap x.1 d hget)⟩
    rw [NetworkManager.updatePlayers_eq_foldl now2]
    rw [NetworkManager.players_rm_all_online now2 psnap
      (NetworkManager.updatePlayers now selfId pcache psnap).cache
      { cache := [], writes := [], created := 0, disposed := 0 } hall]
    exact NetworkManager.players_cr_fold_counts selfId psnap _
      (fun e he hs => hP1b e he hs)

/-- Counterexample for C8 as stated: a snapshot containing a single
offline player is not reconciled idempotently — the first application
creates the player object (the creation loop ignores the `online` flag),
and the second application disposes it again and creates it anew. -/
theorem C8_counterexample :
    (NetworkManager.updatePlayers 0 "p1" [] [("q", offlinePlayer)]).created =
      1 ∧
    (NetworkManager.updatePlayers 0 "p1"
        (NetworkManager.updatePlayers 0 "p1" [] [("q", offlinePlayer)]).cache
        [("q", offlinePlayer)]).created = 1 ∧
    (NetworkManager.updatePlayers 0 "p1"
        (NetworkManager.updatePlayers 0 "p1" [] [("q", offlinePlayer)]).cache
        [("q", offlinePlayer)]).disposed = 1 := by
  decide

/-- Witness for C8: one shape snapshot entry and one online player; the
second application of each reconciliation creates and disposes nothing. -/
theorem C8_witness :
    ((NetworkManager.updateShapes anglesQPi 1
        (NetworkManager.updateShapes anglesQPi 0 []
          [("s1", some unlockData)]).cache [("s1", some unlockData)]).created =
      0 ∧
     (NetworkManager.updateShapes anglesQPi 1
        (NetworkManager.updateShapes anglesQPi 0 []
          [("s1", some unlockData)]).cache
        [("s1", some unlockData)]).disposed = 0) ∧
    ((NetworkManager.updatePlayers 1 "p1"
        (NetworkManager.updatePlayers 0 "p1" [] [("q", onlinePlayer)]).cache
        [("q", onlinePlayer)]).created = 0 ∧
     (NetworkManager.updatePlayers 1 "p1"
        (NetworkManager.updatePlayers 0 "p1" [] [("q", onlinePlayer)]).cache
        [("q", onlinePlayer)]).disposed = 0) :=
  ⟨(C8_reconciliation_idempotence anglesQPi 0 1 [] [("s1", some unlockData)]
      [] "p1" [("q", onlinePlayer)]).1,
   (C8_reconciliation_idempotence anglesQPi 0 1 [] [("s1", some unlockData)]
      [] "p1" [("q", onlinePlayer)]).2 (by decide)⟩
